import Mathlib

/-!
Shallow embedding of the `prefab` module of `bevy_nursery`
(`src/prefab/{mod,asset,builder,serde,spawner}.rs`).

Modelling conventions:
* A type-erased reflected value (`Box<dyn Reflect>`) is a `Value`: a stable
  type name plus a flat list of named fields holding natural numbers.
  `clone_value` is implicit (values are immutable data), `reflect_path_mut`
  is field lookup, `apply` on a field writes the override into the field.
* `bevy::utils::HashMap` / `HashSet` / `EntityMap` are association lists;
  `HashMap::insert` replaces an existing key in place, `entry().or_insert`
  appends.  Iteration order of leftover patch entities is the model list
  order (the real hash order is unspecified).
* `Entity` is a bare `Nat`; `World::spawn_empty` hands out `next_entity`
  and increments it, so live identities are never reused (matching bevy's
  index+generation uniqueness).
* `Uuid::new_v4` is modelled as a fresh-id counter `next_id`.
* `EntityMut` operations on a despawned entity (a panic in the source) are
  modelled as no-ops; no theorem below exercises that path.
-/

namespace BevyPrefab

/-- Association-list lookup, standing in for `HashMap::get`. -/
def alookup {κ α : Type} [DecidableEq κ] : List (κ × α) → κ → Option α
  | [], _ => none
  | (k0, v) :: rest, k => if k0 = k then some v else alookup rest k

/-- Association-list insert-or-replace, standing in for `HashMap::insert`. -/
def insertKey {κ α : Type} [DecidableEq κ] : List (κ × α) → κ → α → List (κ × α)
  | [], k, v => [(k, v)]
  | (k0, v0) :: rest, k, v =>
    if k0 = k then (k, v) :: rest else (k0, v0) :: insertKey rest k v

/-- Association-list key removal, standing in for `HashMap::remove` (drops the entry). -/
def removeKey {κ α : Type} [DecidableEq κ] : List (κ × α) → κ → List (κ × α)
  | [], _ => []
  | (k0, v) :: rest, k =>
    if k0 = k then removeKey rest k else (k0, v) :: removeKey rest k

/-- A type-erased component value (`Box<dyn Reflect>`): stable type name plus named fields. -/
structure Value where
  type_name : String
  fields : List (String × Nat)
deriving DecidableEq, Repr

/-- `PatchEntity` from `asset.rs`: per-entity patch data. -/
structure PatchEntity where
  entity : Nat
  append : List Value
  modify : List (String × List (String × Nat))
  remove : List String
deriving DecidableEq, Repr

/-- `Patch` from `asset.rs`. -/
structure Patch where
  path : String
  modify : List PatchEntity
  ignore : List Nat
deriving DecidableEq, Repr

/-- The empty (`Default`) patch: instantiate verbatim. -/
def emptyPatch : Patch := ⟨"", [], []⟩

/-- `PrefabEntity` from `asset.rs`: a snapshot entity. -/
structure PrefabEntity where
  entity : Nat
  components : List Value
deriving DecidableEq, Repr


/-- `Prefab` from `asset.rs`: the snapshot. -/
structure Prefab where
  entities : List PrefabEntity
deriving DecidableEq, Repr

/-- One `TypeRegistration`: which reflection data entries it carries. -/
structure Registration where
  prefab_component : Bool
  component : Bool
  map_entities : Bool
deriving DecidableEq, Repr

/-- The type registry, keyed by type name (`get_with_name`). -/
abbrev Registry := List (String × Registration)

/-- A live record: its attached component values plus its `Parent` relationship. -/
structure Record where
  components : List Value
  parent : Option Nat
deriving DecidableEq, Repr

/-- The live collection (`World`): monotone id supply plus records. -/
structure World where
  next_entity : Nat
  records : List (Nat × Record)
deriving DecidableEq, Repr

/-- `World::spawn_empty`: new empty record under a fresh identity. -/
def World.spawnEmpty (w : World) : Nat × World :=
  (w.next_entity, ⟨w.next_entity + 1, w.records ++ [(w.next_entity, ⟨[], none⟩)]⟩)

/-- `World::despawn`: drop the record, if present. -/
def World.despawn (w : World) (e : Nat) : World :=
  ⟨w.next_entity, removeKey w.records e⟩

/-- Modify the record stored under `e`, leaving the collection unchanged if absent. -/
def setRecord (rs : List (Nat × Record)) (e : Nat) (f : Record → Record) :
    List (Nat × Record) :=
  match rs with
  | [] => []
  | (k, r) :: rest => if k = e then (k, f r) :: rest else (k, r) :: setRecord rest e f

/-- Replace the component with the same type name, or attach the value fresh. -/
def upsertComponent (cs : List Value) (v : Value) : List Value :=
  match cs with
  | [] => [v]
  | c :: rest =>
    if c.type_name = v.type_name then v :: rest else c :: upsertComponent rest v

/-- `ReflectComponent::apply_or_insert` on one record. -/
def World.applyOrInsert (w : World) (e : Nat) (v : Value) : World :=
  ⟨w.next_entity, setRecord w.records e (fun r => ⟨upsertComponent r.components v, r.parent⟩)⟩

/-- `ReflectPrefabComponent::apply_insert`: build a default value for the type,
apply the reflected data onto it and insert it; with whole-value `apply` this
coincides with replace-or-attach. -/
def World.applyInsertProxy (w : World) (e : Nat) (v : Value) : World :=
  ⟨w.next_entity, setRecord w.records e (fun r => ⟨upsertComponent r.components v, r.parent⟩)⟩

/-- `PrefabError` from `mod.rs`. -/
inductive PrefabError where
  | unregisteredComponent (type_name : String)
  | unregisteredType (type_name : String)
  | nonExistentPrefab (handle : Nat)
  | patchContainsWrongPath (path : String) (err : String)
deriving DecidableEq, Repr

/-- The rendered `ReflectPathError` message attached to `PatchContainsWrongPath`. -/
def invalidPathMsg : String := "invalid path"

/-- Write `x` into the field named `p`, first occurrence. -/
def setField (fs : List (String × Nat)) (p : String) (x : Nat) : List (String × Nat) :=
  match fs with
  | [] => []
  | (q, y) :: rest => if q = p then (q, x) :: rest else (q, y) :: setField rest p x

/-- Apply each `(field-path, override)` pair of a `modify` entry onto a clone of
the component (`reflect_path_mut` + `apply`), failing on the first unresolvable path. -/
def applyPatchPaths : List (String × Nat) → Value → Except PrefabError Value
  | [], v => .ok v
  | (path, ov) :: rest, v =>
    if (v.fields.map Prod.fst).contains path then
      applyPatchPaths rest ⟨v.type_name, setField v.fields path ov⟩
    else
      .error (.patchContainsWrongPath path invalidPathMsg)

/-- The state threaded through `write_to_world`: the live collection, the
entity remap table, and the `scene_mappings` side table. -/
structure WriteSt where
  world : World
  entity_map : List (Nat × Nat)
  scene_mappings : List (String × List Nat)
deriving DecidableEq, Repr

/-- `entity_map.entry(..).or_insert_with(|| world.spawn_empty().id())`. -/
def resolveEntity (st : WriteSt) (lid : Nat) : Nat × WriteSt :=
  match alookup st.entity_map lid with
  | some e => (e, st)
  | none =>
    let (e, w) := st.world.spawnEmpty
    (e, ⟨w, st.entity_map ++ [(lid, e)], st.scene_mappings⟩)

/-- `scene_mappings.entry(type).or_insert(Vec::new()).push(entity)`. -/
def pushSceneMapping (sm : List (String × List Nat)) (n : String) (e : Nat) :
    List (String × List Nat) :=
  match sm with
  | [] => [(n, [e])]
  | (k, es) :: rest =>
    if k = n then (k, es ++ [e]) :: rest else (k, es) :: pushSceneMapping rest n e

/-- Registry resolution and attachment for one (possibly patched) component:
the tail of the component loop in `write_to_world`, shared by both loops. -/
def insertStep (reg : Registry) (e : Nat) (st : WriteSt) (c : Value) :
    WriteSt × Option PrefabError :=
  match alookup reg c.type_name with
  | none => (st, some (.unregisteredType c.type_name))
  | some r =>
    if r.prefab_component then
      (⟨st.world.applyInsertProxy e c, st.entity_map, st.scene_mappings⟩, none)
    else if r.component then
      let sm := if r.map_entities
        then pushSceneMapping st.scene_mappings c.type_name e
        else st.scene_mappings
      (⟨st.world.applyOrInsert e c, st.entity_map, sm⟩, none)
    else (st, some (.unregisteredComponent c.type_name))

/-- One iteration of the component loop of `write_to_world` (snapshot loop when
`patch` is the drained matching `PatchEntity`, leftover loop when `patch = none`). -/
def processComponent (reg : Registry) (patch : Option PatchEntity) (e : Nat)
    (st : WriteSt) (c : Value) : WriteSt × Option PrefabError :=
  match patch with
  | some p =>
    if p.remove.contains c.type_name then (st, none)
    else
      match alookup p.modify c.type_name with
      | some m =>
        match applyPatchPaths m c with
        | .error err => (st, some err)
        | .ok c2 => insertStep reg e st c2
      | none => insertStep reg e st c
  | none => insertStep reg e st c

/-- The component loop: stop at the first error, keeping the mutations made so far. -/
def processComponents (reg : Registry) (patch : Option PatchEntity) (e : Nat) :
    WriteSt → List Value → WriteSt × Option PrefabError
  | st, [] => (st, none)
  | st, c :: cs =>
    match processComponent reg patch e st c with
    | (st1, none) => processComponents reg patch e st1 cs
    | (st1, some err) => (st1, some err)

/-- `patch.modify.iter().map(|e| (e.entity, e)).collect::<HashMap<_,_>>()`:
later entries with the same id replace earlier ones. -/
def patchMapInsert (pm : List PatchEntity) (p : PatchEntity) : List PatchEntity :=
  match pm with
  | [] => [p]
  | q :: rest => if q.entity = p.entity then p :: rest else q :: patchMapInsert rest p

/-- Build the patch lookup map from `patch.modify`. -/
def collectPatchMap (l : List PatchEntity) : List PatchEntity :=
  l.foldl patchMapInsert []

/-- `patch_map.remove(&id)`: drain the matching entry, if any. -/
def patchMapRemove : List PatchEntity → Nat → Option PatchEntity × List PatchEntity
  | [], _ => (none, [])
  | q :: rest, k =>
    if q.entity = k then (some q, rest)
    else
      let (o, rest2) := patchMapRemove rest k
      (o, q :: rest2)

/-- The matching patch entity's `append` list, when a matching patch exists. -/
def patchAppend : Option PatchEntity → List Value
  | some p => p.append
  | none => []

/-- One iteration of the snapshot-entity loop of `write_to_world`. -/
def processEntity (reg : Registry) (ignore : List Nat)
    (stpm : WriteSt × List PatchEntity) (pe : PrefabEntity) :
    (WriteSt × List PatchEntity) × Option PrefabError :=
  if ignore.contains pe.entity then (stpm, none)
  else
    let (e, st1) := resolveEntity stpm.1 pe.entity
    let (patch, pm1) := patchMapRemove stpm.2 pe.entity
    let comps := pe.components ++ patchAppend patch
    let (st2, err) := processComponents reg patch e st1 comps
    ((st2, pm1), err)

/-- The snapshot-entity loop: stop at the first error. -/
def processEntities (reg : Registry) (ignore : List Nat) :
    (WriteSt × List PatchEntity) → List PrefabEntity →
    (WriteSt × List PatchEntity) × Option PrefabError
  | stpm, [] => (stpm, none)
  | stpm, pe :: pes =>
    match processEntity reg ignore stpm pe with
    | (stpm1, none) => processEntities reg ignore stpm1 pes
    | (stpm1, some err) => (stpm1, some err)

/-- One iteration of the leftover-patch loop (`for patch in patch_map.into_values()`):
only the `append` values, no `remove`/`modify` filtering. -/
def processLeftoverEntity (reg : Registry) (st : WriteSt) (p : PatchEntity) :
    WriteSt × Option PrefabError :=
  let (e, st1) := resolveEntity st p.entity
  processComponents reg none e st1 p.append

/-- The leftover-patch loop: stop at the first error. -/
def processLeftovers (reg : Registry) :
    WriteSt → List PatchEntity → WriteSt × Option PrefabError
  | st, [] => (st, none)
  | st, p :: ps =>
    match processLeftoverEntity reg st p with
    | (st1, none) => processLeftovers reg st1 ps
    | (st1, some err) => (st1, some err)

/-- `ReflectMapEntities::map_entities` for one value: rewrite every stored field
through the remap table, leaving unmapped field values untouched. -/
def rewriteValue (em : List (Nat × Nat)) (v : Value) : Value :=
  ⟨v.type_name, v.fields.map (fun pv => (pv.1, (alookup em pv.2).getD pv.2))⟩

/-- Apply the reference rewrite of type `n` to one touched record. -/
def mapEntitiesRewrite (em : List (Nat × Nat)) (n : String) (w : World) (e : Nat) : World :=
  ⟨w.next_entity,
    setRecord w.records e (fun r =>
      ⟨r.components.map (fun c => if c.type_name = n then rewriteValue em c else c),
       r.parent⟩)⟩

/-- The reference-rewrite pass over one `scene_mappings` bucket. -/
def applyMapEntitiesFor (em : List (Nat × Nat)) (n : String) (w : World)
    (es : List Nat) : World :=
  es.foldl (mapEntitiesRewrite em n) w

/-- The post-pass: for every reference-bearing type touched this write,
rewrite the listed records through the remap table. -/
def applySceneMappings (reg : Registry) (em : List (Nat × Nat)) :
    World → List (String × List Nat) → World
  | w, [] => w
  | w, (n, es) :: rest =>
    let w1 := match alookup reg n with
      | some r => if r.map_entities then applyMapEntitiesFor em n w es else w
      | none => w
    applySceneMappings reg em w1 rest

/-- The final state of one `write_to_world` call: the mutated collection and
remap table, plus the returned error if the call stopped early. -/
structure WriteResult where
  world : World
  entity_map : List (Nat × Nat)
  error : Option PrefabError
deriving DecidableEq, Repr

/-- `write_to_world` from `mod.rs`: snapshot-entity loop, leftover-patch loop,
then the reference-rewrite pass; the first error stops the call, keeping the
mutations already made. -/
def writeToWorld (reg : Registry) (patch : Patch) (prefab : Prefab)
    (w : World) (em : List (Nat × Nat)) : WriteResult :=
  let pm := collectPatchMap patch.modify
  match processEntities reg patch.ignore (⟨w, em, []⟩, pm) prefab.entities with
  | ((st1, pm1), none) =>
    match processLeftovers reg st1 pm1 with
    | (st2, none) =>
      ⟨applySceneMappings reg st2.entity_map st2.world st2.scene_mappings,
       st2.entity_map, none⟩
    | (st2, some err) => ⟨st2.world, st2.entity_map, some err⟩
  | ((st1, _), some err) => ⟨st1.world, st1.entity_map, some err⟩

/-! Codec (`serde.rs`): the wire form is the nested map structure the RON
text denotes — outer key the entity id, inner map from type name to the
type's serialized field data. -/

/-- The serialized nested-map structure of a prefab file. -/
abbrev Wire := List (Nat × List (String × List (String × Nat)))

/-- `PrefabSerializer` + `ComponentsSerializer`: entities in snapshot order,
per entity the components keyed by `type_name` in component order. -/
def encodePrefab (p : Prefab) : Wire :=
  p.entities.map (fun pe =>
    (pe.entity, pe.components.map (fun c => (c.type_name, c.fields))))

/-- `ComponentsDeserializer::visit_map`: look the type name up in the
registry (error if absent) and deserialize the typed value. -/
def decodeComponents (reg : Registry) :
    List (String × List (String × Nat)) → Except String (List Value)
  | [] => .ok []
  | (n, fs) :: rest =>
    match alookup reg n with
    | none => .error n
    | some _ =>
      match decodeComponents reg rest with
      | .ok cs => .ok (⟨n, fs⟩ :: cs)
      | .error e => .error e

/-- `PrefabDeserializer::visit_map`: entities in encounter order. -/
def decodeEntities (reg : Registry) : Wire → Except String (List PrefabEntity)
  | [] => .ok []
  | (k, cs) :: rest =>
    match decodeComponents reg cs with
    | .error e => .error e
    | .ok comps =>
      match decodeEntities reg rest with
      | .error e => .error e
      | .ok pes => .ok (⟨k, comps⟩ :: pes)

/-- `Prefab::deserialize_ron` (through `PrefabDeserializer`). -/
def decodePrefab (reg : Registry) (w : Wire) : Except String Prefab :=
  (decodeEntities reg w).map Prefab.mk

/-! Spawner (`spawner.rs`). -/

/-- `AssetEvent<Prefab>`; handles are bare naturals. -/
inductive AssetEvent where
  | created (handle : Nat)
  | modified (handle : Nat)
  | removed (handle : Nat)
deriving DecidableEq, Repr

/-- `Assets<Prefab>`: asset storage, `get` by handle. -/
abbrev Assets := List (Nat × Prefab)

/-- `PrefabInstanceInfo`: owns the instance's remap table. -/
structure PrefabInstanceInfo where
  entity_map : List (Nat × Nat)
deriving DecidableEq, Repr

/-- `PrefabInstanceInfo::spawn`: resolve the handle (else
`NonExistentPrefab`) and run `write_to_world` with the empty patch over the
instance's own remap table. -/
def infoSpawn (reg : Registry) (assets : Assets) (w : World)
    (info : PrefabInstanceInfo) (handle : Nat) :
    (World × PrefabInstanceInfo) × Option PrefabError :=
  match alookup assets handle with
  | none => ((w, info), some (.nonExistentPrefab handle))
  | some prefab =>
    let r := writeToWorld reg emptyPatch prefab w info.entity_map
    ((r.world, ⟨r.entity_map⟩), r.error)

/-- `PrefabInstanceInfo::despawn`: destroy every live record the table maps. -/
def infoDespawn (w : World) (info : PrefabInstanceInfo) : World :=
  info.entity_map.foldl (fun acc kv => acc.despawn kv.2) w

/-- The `Spawned` registry: the reverse index and the live instances. -/
structure Spawned where
  prefabs : List (Nat × List Nat)
  instances : List (Nat × PrefabInstanceInfo)
deriving DecidableEq, Repr

/-- `Spawned::despawn`: remove the instance and destroy its records
(the `prefabs` bucket keeps the stale id). -/
def spawnedDespawn (w : World) (sp : Spawned) (id : Nat) : World × Spawned :=
  match alookup sp.instances id with
  | some info => (infoDespawn w info, ⟨sp.prefabs, removeKey sp.instances id⟩)
  | none => (w, sp)

/-- The body of `Spawned::update` over one tracked-instance list: re-enter
the writer on each existing instance's remap table.  The source unwraps the
result (a panic on error); the model keeps the partially mutated state and
moves on, a path no theorem below exercises. -/
def spawnedUpdateIds (reg : Registry) (assets : Assets) (handle : Nat) :
    World × Spawned → List Nat → World × Spawned
  | ws, [] => ws
  | (w, sp), id :: ids =>
    match alookup sp.instances id with
    | some info =>
      let r := infoSpawn reg assets w info handle
      spawnedUpdateIds reg assets handle
        (r.1.1, ⟨sp.prefabs, insertKey sp.instances id r.1.2⟩) ids
    | none => spawnedUpdateIds reg assets handle (w, sp) ids

/-- `Spawned::update`: hot-update every tracked instance of the handle. -/
def spawnedUpdate (reg : Registry) (assets : Assets) (w : World) (sp : Spawned)
    (handle : Nat) : World × Spawned :=
  match alookup sp.prefabs handle with
  | some ids => spawnedUpdateIds reg assets handle (w, sp) ids
  | none => (w, sp)

/-- `prefabs.entry(handle).or_default().push(id)`. -/
def pushBucket (l : List (Nat × List Nat)) (h : Nat) (id : Nat) :
    List (Nat × List Nat) :=
  match l with
  | [] => [(h, [id])]
  | (k, ids) :: rest =>
    if k = h then (k, ids ++ [id]) :: rest else (k, ids) :: pushBucket rest h id

/-- `PrefabSpawner`: the queues, the spawned registry, and the fresh-id
supply standing in for `Uuid::new_v4`. -/
structure PrefabSpawner where
  spawned : Spawned
  to_spawn : List (Nat × Nat)
  to_despawn : List Nat
  with_parent : List (Nat × Nat)
  updates : List Nat
  next_id : Nat
deriving DecidableEq, Repr

/-- `PrefabSpawner::spawn`: mint an id, queue the request (and the optional
parent attachment), return immediately. -/
def PrefabSpawner.spawnRequest (s : PrefabSpawner) (handle : Nat)
    (parent : Option Nat) : Nat × PrefabSpawner :=
  let id := s.next_id
  (id,
   ⟨s.spawned, s.to_spawn ++ [(handle, id)], s.to_despawn,
    (match parent with
     | some p => s.with_parent ++ [(id, p)]
     | none => s.with_parent),
    s.updates, s.next_id + 1⟩)

/-- `PrefabSpawner::despawn`: queue the despawn. -/
def PrefabSpawner.despawnRequest (s : PrefabSpawner) (id : Nat) : PrefabSpawner :=
  ⟨s.spawned, s.to_spawn, s.to_despawn ++ [id], s.with_parent, s.updates, s.next_id⟩

/-- `PrefabSpawner::is_ready`: membership in the `instances` map. -/
def PrefabSpawner.isReady (s : PrefabSpawner) (id : Nat) : Bool :=
  (alookup s.spawned.instances id).isSome

/-- `PrefabSpawner::info`: read-only view into the `instances` map. -/
def PrefabSpawner.infoOf (s : PrefabSpawner) (id : Nat) : Option PrefabInstanceInfo :=
  alookup s.spawned.instances id

/-- Phase 1 of `maintain`: drain asset events, queueing `Modified` handles
that have tracked instances. -/
def drainEvents (sp : Spawned) (updates : List Nat) : List AssetEvent → List Nat
  | [] => updates
  | (.modified h) :: rest =>
    drainEvents sp
      (if (alookup sp.prefabs h).isSome then updates ++ [h] else updates) rest
  | (.created _) :: rest => drainEvents sp updates rest
  | (.removed _) :: rest => drainEvents sp updates rest

/-- Phase 2 of `maintain`: process every queued despawn. -/
def despawnPhase : World × Spawned → List Nat → World × Spawned
  | ws, [] => ws
  | (w, sp), id :: ids => despawnPhase (spawnedDespawn w sp id) ids

/-- The outcome of the `to_spawn` `retain` pass. -/
structure SpawnPhaseResult where
  world : World
  spawned : Spawned
  kept : List (Nat × Nat)
  log : List PrefabError
deriving DecidableEq, Repr

/-- Phase 3 of `maintain` (`to_spawn.retain`): attempt each spawn with a
fresh `PrefabInstanceInfo`; success registers the instance and drops the
request, `NonExistentPrefab` keeps it queued, any other error drops it and
logs it, and the remaining requests are still processed. -/
def spawnPhase (reg : Registry) (assets : Assets) :
    World → Spawned → List (Nat × Nat) → SpawnPhaseResult
  | w, sp, [] => ⟨w, sp, [], []⟩
  | w, sp, (h, id) :: rest =>
    match infoSpawn reg assets w ⟨[]⟩ h with
    | ((w1, info), none) =>
      spawnPhase reg assets w1
        ⟨pushBucket sp.prefabs h id, insertKey sp.instances id info⟩ rest
    | ((w1, _), some (.nonExistentPrefab _)) =>
      let r := spawnPhase reg assets w1 sp rest
      ⟨r.world, r.spawned, (h, id) :: r.kept, r.log⟩
    | ((w1, _), some e) =>
      let r := spawnPhase reg assets w1 sp rest
      ⟨r.world, r.spawned, r.kept, e :: r.log⟩

/-- Phase 4 of `maintain`: run the queued hot-updates. -/
def updatePhase (reg : Registry) (assets : Assets) :
    World × Spawned → List Nat → World × Spawned
  | ws, [] => ws
  | ws, h :: hs => updatePhase reg assets (spawnedUpdate reg assets ws.1 ws.2 h) hs

/-- `AddChild { parent, child }`: set the child's `Parent` relationship. -/
def addChild (w : World) (parent child : Nat) : World :=
  ⟨w.next_entity, setRecord w.records child (fun r => ⟨r.components, some parent⟩)⟩

/-- The inner loop of phase 5: attach every instance record that exists and
has no `Parent` yet (missing records are treated as already parented). -/
def attachLoop (parent : Nat) : World → List (Nat × Nat) → World
  | w, [] => w
  | w, (_, child) :: rest =>
    let parented := match alookup w.records child with
      | some r => r.parent.isSome
      | none => true
    attachLoop parent (if parented then w else addChild w parent child) rest

/-- Phase 5 of `maintain` (`with_parent.retain`): entries whose instance is
spawned are attached and dropped; the others stay queued. -/
def parentPhase (sp : Spawned) : World → List (Nat × Nat) → World × List (Nat × Nat)
  | w, [] => (w, [])
  | w, (id, parent) :: rest =>
    match alookup sp.instances id with
    | some info =>
      parentPhase sp (attachLoop parent w info.entity_map) rest
    | none =>
      let r := parentPhase sp w rest
      (r.1, (id, parent) :: r.2)

/-- `PrefabSpawner::maintain`: the five phases in their source order —
drain notifications, despawns, spawns, updates, parent attachments.
Returns the mutated world, the next spawner state, and the error log of the
spawn phase. -/
def maintain (reg : Registry) (assets : Assets) (events : List AssetEvent)
    (w : World) (s : PrefabSpawner) : World × PrefabSpawner × List PrefabError :=
  let updates := drainEvents s.spawned s.updates events
  let ws1 := despawnPhase (w, s.spawned) s.to_despawn
  let r := spawnPhase reg assets ws1.1 ws1.2 s.to_spawn
  let ws3 := updatePhase reg assets (r.world, r.spawned) updates
  let wp := parentPhase ws3.2 ws3.1 s.with_parent
  (wp.1, ⟨ws3.2, r.kept, [], wp.2, [], s.next_id⟩, r.log)


/-! Concrete fixtures and invariant predicates used by the theorems below. -/

/-- A registry with one ordinary reflected component type. -/
def regPos : Registry := [("Position", ⟨false, true, false⟩)]

/-- The snapshot of the spec's modify scenario: one entity with `Position{x:0,y:0}`. -/
def prefabPos : Prefab := ⟨[⟨1, [⟨"Position", [("x", 0), ("y", 0)]⟩]⟩]⟩

/-- The patch of the spec's modify scenario: override field `x` of entity 1 to 5. -/
def patchModifyX5 : Patch := ⟨"", [⟨1, [], [("Position", [("x", 5)])], []⟩], []⟩

/-- A patch that both ignores entity 1 and carries a patch entity with
`append` values for the same id. -/
def patchIgnoreAppend : Patch := ⟨"", [⟨1, [⟨"Position", [("x", 7), ("y", 7)]⟩], [], []⟩], [1]⟩

/-- Key uniqueness of the patch lookup map. -/
def pmKeysNodup (pm : List PatchEntity) : Prop :=
  (pm.map PatchEntity.entity).Nodup

/-- The writer-state invariant protecting the record of local id `lid` from
components named `n`: a well-formed world, a live-bounded injective remap
table, and the protected record free of `n`. -/
def C4Inv (n : String) (lid : Nat) (st : WriteSt) : Prop :=
  (∀ kv ∈ st.world.records, kv.1 < st.world.next_entity) ∧
  (∀ kv ∈ st.entity_map, kv.2 < st.world.next_entity) ∧
  (∀ kv1 ∈ st.entity_map, ∀ kv2 ∈ st.entity_map, kv1.2 = kv2.2 → kv1.1 = kv2.1) ∧
  (∀ e, alookup st.entity_map lid = some e →
    ∀ rec, alookup st.world.records e = some rec → ∀ c ∈ rec.components, c.type_name ≠ n)

/-- The combined fold invariant: the state invariant, key-unique patch map,
and either `lid` still unseen with its patch entity `p` still in the map, or
`lid` seen and no patch entity for it left. -/
def C4State (n : String) (lid : Nat) (p : PatchEntity)
    (stpm : WriteSt × List PatchEntity) : Prop :=
  C4Inv n lid stpm.1 ∧ pmKeysNodup stpm.2 ∧
  ((alookup stpm.1.entity_map lid = none ∧ (patchMapRemove stpm.2 lid).1 = some p) ∨
   ((alookup stpm.1.entity_map lid).isSome ∧ ∀ q ∈ stpm.2, q.entity ≠ lid))

/-- A patch listing type Position both in `remove` and in `modify` for entity 1. -/
def patchRemoveModify : Patch :=
  ⟨"", [⟨1, [], [("Position", [("x", 5)])], ["Position"]⟩], []⟩

/-- A registry with two ordinary reflected component types. -/
def regPH : Registry := [("Position", ⟨false, true, false⟩), ("Health", ⟨false, true, false⟩)]

/-- A snapshot whose entity 1 carries both a Position and a Health value. -/
def prefabPH : Prefab :=
  ⟨[⟨1, [⟨"Position", [("x", 0), ("y", 0)]⟩, ⟨"Health", [("hp", 10)]⟩]⟩]⟩

/-! Lemmas about the association-list primitives. -/

theorem alookup_insertKey {κ α : Type} [DecidableEq κ] (l : List (κ × α)) (k x : κ) (v : α) :
    alookup (insertKey l k v) x = if k = x then some v else alookup l x := by
  induction l with
  | nil => simp [insertKey, alookup]
  | cons p rest ih =>
    obtain ⟨k0, v0⟩ := p
    by_cases hk : k0 = k
    · subst hk
      by_cases hx : k0 = x <;> simp [insertKey, alookup, hx]
    · by_cases hx : k0 = x
      · subst hx
        have hkx : ¬ k = k0 := fun h => hk h.symm
        simp [insertKey, hk, alookup, hkx]
      · simp [insertKey, hk, alookup, hx, ih]

theorem alookup_removeKey {κ α : Type} [DecidableEq κ] (l : List (κ × α)) (k x : κ) :
    alookup (removeKey l k) x = if k = x then none else alookup l x := by
  induction l with
  | nil => simp [removeKey, alookup]
  | cons p rest ih =>
    obtain ⟨k0, v0⟩ := p
    by_cases hk : k0 = k
    · subst hk
      by_cases hx : k0 = x
      · subst hx
        simp [removeKey, alookup, ih]
      · simp [removeKey, alookup, hx, ih]
    · by_cases hx : k0 = x
      · subst hx
        have hkx : ¬ k = k0 := fun h => hk h.symm
        simp [removeKey, hk, alookup, hkx]
      · simp [removeKey, hk, alookup, hx, ih]

theorem alookup_append_some {κ α : Type} [DecidableEq κ] {l1 : List (κ × α)}
    (l2 : List (κ × α)) {x : κ} {v : α} (h : alookup l1 x = some v) :
    alookup (l1 ++ l2) x = some v := by
  induction l1 with
  | nil => simp [alookup] at h
  | cons p rest ih =>
    obtain ⟨k0, v0⟩ := p
    by_cases hx : k0 = x
    · simp [alookup, hx] at h ⊢
      exact h
    · simp [alookup, hx] at h ⊢
      exact ih h

theorem alookup_append_none {κ α : Type} [DecidableEq κ] {l1 : List (κ × α)}
    (l2 : List (κ × α)) {x : κ} (h : alookup l1 x = none) :
    alookup (l1 ++ l2) x = alookup l2 x := by
  induction l1 with
  | nil => simp
  | cons p rest ih =>
    obtain ⟨k0, v0⟩ := p
    by_cases hx : k0 = x
    · simp [alookup, hx] at h
    · simp [alookup, hx] at h ⊢
      exact ih h

theorem alookup_isSome_append {κ α : Type} [DecidableEq κ] {l1 : List (κ × α)}
    (l2 : List (κ × α)) {x : κ} (h : (alookup l1 x).isSome) :
    (alookup (l1 ++ l2) x).isSome := by
  obtain ⟨v, hv⟩ := Option.isSome_iff_exists.1 h
  rw [alookup_append_some l2 hv]
  rfl

theorem alookup_mem {κ α : Type} [DecidableEq κ] {l : List (κ × α)} {x : κ} {v : α}
    (h : alookup l x = some v) : (x, v) ∈ l := by
  induction l with
  | nil => simp [alookup] at h
  | cons p rest ih =>
    obtain ⟨k0, v0⟩ := p
    by_cases hx : k0 = x
    · subst hx
      simp [alookup] at h
      simp [h]
    · simp [alookup, hx] at h
      exact List.mem_cons_of_mem _ (ih h)

/-! Lemmas about record updates. -/

theorem alookup_setRecord (rs : List (Nat × Record)) (e : Nat) (f : Record → Record)
    (x : Nat) :
    alookup (setRecord rs e f) x =
      if x = e then Option.map f (alookup rs x) else alookup rs x := by
  induction rs with
  | nil => simp [setRecord, alookup]
  | cons p rest ih =>
    obtain ⟨k, r⟩ := p
    by_cases hk : k = e
    · subst hk
      by_cases hx : k = x
      · subst hx
        simp [setRecord, alookup]
      · have hxk : ¬ x = k := fun h => hx h.symm
        simp [setRecord, alookup, hx, hxk]
    · by_cases hx : k = x
      · subst hx
        have hxe : ¬ k = e := hk
        simp [setRecord, hxe, alookup, hxe]
      · simp [setRecord, hk, alookup, hx, ih]

theorem setRecord_keys (rs : List (Nat × Record)) (e : Nat) (f : Record → Record) :
    (setRecord rs e f).map Prod.fst = rs.map Prod.fst := by
  induction rs with
  | nil => rfl
  | cons p rest ih =>
    obtain ⟨k, r⟩ := p
    by_cases hk : k = e <;> simp [setRecord, hk, ih]

theorem setRecord_length (rs : List (Nat × Record)) (e : Nat) (f : Record → Record) :
    (setRecord rs e f).length = rs.length := by
  have h := congrArg List.length (setRecord_keys rs e f)
  simpa using h

/-! Lemmas about component values. -/

theorem upsertComponent_no_name {cs : List Value} {n : String} {v : Value}
    (hcs : ∀ c ∈ cs, c.type_name ≠ n) (hv : v.type_name ≠ n) :
    ∀ c ∈ upsertComponent cs v, c.type_name ≠ n := by
  induction cs with
  | nil =>
    intro c hc
    simp [upsertComponent] at hc
    simp [hc, hv]
  | cons c0 rest ih =>
    intro c hc
    by_cases h0 : c0.type_name = v.type_name
    · simp [upsertComponent, h0] at hc
      rcases hc with hc | hc
      · simp [hc, hv]
      · exact hcs c (List.mem_cons_of_mem _ hc)
    · simp [upsertComponent, h0] at hc
      rcases hc with hc | hc
      · exact hcs c (by simp [hc])
      · exact ih (fun c2 h2 => hcs c2 (List.mem_cons_of_mem _ h2)) c hc

theorem applyPatchPaths_ok_type_name {m : List (String × Nat)} {v v2 : Value}
    (h : applyPatchPaths m v = .ok v2) : v2.type_name = v.type_name := by
  induction m generalizing v with
  | nil =>
    simp [applyPatchPaths] at h
    simp [← h]
  | cons pv rest ih =>
    obtain ⟨path, ov⟩ := pv
    simp only [applyPatchPaths] at h
    by_cases hp : (v.fields.map Prod.fst).contains path = true
    · rw [if_pos hp] at h
      exact ih (v := ⟨v.type_name, setField v.fields path ov⟩) h
    · rw [if_neg hp] at h
      exact absurd h (by simp)

/-! Lemmas about the patch lookup map. -/

theorem patchMapInsert_mem {pm : List PatchEntity} {p q : PatchEntity}
    (h : q ∈ patchMapInsert pm p) : q = p ∨ q ∈ pm := by
  induction pm with
  | nil =>
    simp [patchMapInsert] at h
    exact Or.inl h
  | cons p0 rest ih =>
    by_cases h0 : p0.entity = p.entity
    · simp [patchMapInsert, h0] at h
      rcases h with h | h
      · exact Or.inl h
      · exact Or.inr (List.mem_cons_of_mem _ h)
    · simp [patchMapInsert, h0] at h
      rcases h with h | h
      · exact Or.inr (by simp [h])
      · rcases ih h with h2 | h2
        · exact Or.inl h2
        · exact Or.inr (List.mem_cons_of_mem _ h2)

theorem collectPatchMap_mem_aux {q : PatchEntity} :
    ∀ (l acc : List PatchEntity), q ∈ l.foldl patchMapInsert acc → q ∈ acc ∨ q ∈ l := by
  intro l
  induction l with
  | nil =>
    intro acc ha
    exact Or.inl ha
  | cons p rest ih =>
    intro acc ha
    rcases ih (patchMapInsert acc p) ha with h3 | h3
    · rcases patchMapInsert_mem h3 with h4 | h4
      · exact Or.inr (by simp [h4])
      · exact Or.inl h4
    · exact Or.inr (List.mem_cons_of_mem _ h3)

theorem collectPatchMap_mem {l : List PatchEntity} {q : PatchEntity}
    (h : q ∈ collectPatchMap l) : q ∈ l := by
  rcases collectPatchMap_mem_aux l [] h with h3 | h3
  · simp at h3
  · exact h3

theorem patchMapRemove_snd_mem {pm : List PatchEntity} {k : Nat} {q : PatchEntity}
    (h : q ∈ (patchMapRemove pm k).2) : q ∈ pm := by
  induction pm with
  | nil => simp [patchMapRemove] at h
  | cons p0 rest ih =>
    by_cases h0 : p0.entity = k
    · simp [patchMapRemove, h0] at h
      exact List.mem_cons_of_mem _ h
    · simp [patchMapRemove, h0] at h
      rcases h with h | h
      · simp [h]
      · exact List.mem_cons_of_mem _ (ih h)

theorem patchMapRemove_mem_or {pm : List PatchEntity} {k : Nat} {q : PatchEntity}
    (h : q ∈ pm) : q ∈ (patchMapRemove pm k).2 ∨ q.entity = k := by
  induction pm with
  | nil => simp at h
  | cons p0 rest ih =>
    by_cases h0 : p0.entity = k
    · rcases List.mem_cons.1 h with h1 | h1
      · exact Or.inr (h1 ▸ h0)
      · exact Or.inl (by simp [patchMapRemove, h0]; exact h1)
    · rcases List.mem_cons.1 h with h1 | h1
      · exact Or.inl (by simp [patchMapRemove, h0, h1])
      · rcases ih h1 with h2 | h2
        · exact Or.inl (by simp [patchMapRemove, h0]; exact Or.inr h2)
        · exact Or.inr h2

theorem patchMapRemove_fst_mem {pm : List PatchEntity} {k : Nat} {q : PatchEntity}
    (h : (patchMapRemove pm k).1 = some q) : q ∈ pm ∧ q.entity = k := by
  induction pm with
  | nil => simp [patchMapRemove] at h
  | cons p0 rest ih =>
    by_cases h0 : p0.entity = k
    · simp [patchMapRemove, h0] at h
      exact ⟨by simp [h], h ▸ h0⟩
    · simp [patchMapRemove, h0] at h
      rcases ih h with ⟨h1, h2⟩
      exact ⟨List.mem_cons_of_mem _ h1, h2⟩

theorem patchMapRemove_fst_stable {pm : List PatchEntity} {k k2 : Nat} (hne : k2 ≠ k) :
    (patchMapRemove (patchMapRemove pm k2).2 k).1 = (patchMapRemove pm k).1 := by
  induction pm with
  | nil => simp [patchMapRemove]
  | cons p0 rest ih =>
    have hne2 : ¬ k = k2 := fun h => hne h.symm
    by_cases h2 : p0.entity = k2
    · have hk : ¬ p0.entity = k := by
        intro h
        exact hne (h2 ▸ h ▸ rfl)
      simp [patchMapRemove, h2, hk, ih, hne, hne2]
    · by_cases hk : p0.entity = k
      · simp [patchMapRemove, h2, hk, hne, hne2]
      · simp [patchMapRemove, h2, hk, ih, hne, hne2]

/-! State-evolution lemmas for the writer. -/

theorem resolveEntity_hit {st : WriteSt} {lid e : Nat}
    (h : alookup st.entity_map lid = some e) : resolveEntity st lid = (e, st) := by
  simp [resolveEntity, h]

theorem resolveEntity_miss {st : WriteSt} {lid : Nat}
    (h : alookup st.entity_map lid = none) :
    resolveEntity st lid =
      (st.world.next_entity,
       ⟨⟨st.world.next_entity + 1, st.world.records ++ [(st.world.next_entity, ⟨[], none⟩)]⟩,
        st.entity_map ++ [(lid, st.world.next_entity)], st.scene_mappings⟩) := by
  simp [resolveEntity, h, World.spawnEmpty]

theorem insertStep_state (reg : Registry) (e : Nat) (st : WriteSt) (c : Value) :
    (insertStep reg e st c).1.entity_map = st.entity_map ∧
    (insertStep reg e st c).1.world.next_entity = st.world.next_entity ∧
    (insertStep reg e st c).1.world.records.map Prod.fst = st.world.records.map Prod.fst ∧
    (∀ x, x ≠ e →
      alookup (insertStep reg e st c).1.world.records x = alookup st.world.records x) ∧
    (∀ x, alookup st.world.records x = none →
      alookup (insertStep reg e st c).1.world.records x = none) := by
  cases h : alookup reg c.type_name with
  | none => simp [insertStep, h]
  | some r =>
    by_cases h1 : r.prefab_component = true
    · refine ⟨?_, ?_, ?_, ?_, ?_⟩ <;>
        simp [insertStep, h, h1, World.applyInsertProxy, setRecord_keys]
      · intro x hx
        rw [alookup_setRecord]
        simp [hx]
      · intro x hx
        rw [alookup_setRecord]
        simp [hx]
    · by_cases h2 : r.component = true
      · refine ⟨?_, ?_, ?_, ?_, ?_⟩ <;>
          simp [insertStep, h, h1, h2, World.applyOrInsert, setRecord_keys]
        · intro x hx
          rw [alookup_setRecord]
          simp [hx]
        · intro x hx
          rw [alookup_setRecord]
          simp [hx]
      · simp [insertStep, h, h1, h2]

theorem processComponent_state (reg : Registry) (patch : Option PatchEntity) (e : Nat)
    (st : WriteSt) (c : Value) :
    (processComponent reg patch e st c).1.entity_map = st.entity_map ∧
    (processComponent reg patch e st c).1.world.next_entity = st.world.next_entity ∧
    (processComponent reg patch e st c).1.world.records.map Prod.fst =
      st.world.records.map Prod.fst ∧
    (∀ x, x ≠ e →
      alookup (processComponent reg patch e st c).1.world.records x =
        alookup st.world.records x) ∧
    (∀ x, alookup st.world.records x = none →
      alookup (processComponent reg patch e st c).1.world.records x = none) := by
  cases patch with
  | none => exact insertStep_state reg e st c
  | some p =>
    by_cases h1 : p.remove.contains c.type_name = true
    · have h1m : c.type_name ∈ p.remove := by simpa using h1
      simp [processComponent, h1m]
    · have h1m : c.type_name ∉ p.remove := by simpa using h1
      cases h2 : alookup p.modify c.type_name with
      | none =>
        have := insertStep_state reg e st c
        simpa [processComponent, h1m, h2] using this
      | some m =>
        cases h3 : applyPatchPaths m c with
        | error err => simp [processComponent, h1m, h2, h3]
        | ok c2 =>
          have := insertStep_state reg e st c2
          simpa [processComponent, h1m, h2, h3] using this

theorem processComponents_state (reg : Registry) (patch : Option PatchEntity) (e : Nat)
    (st : WriteSt) (cs : List Value) :
    (processComponents reg patch e st cs).1.entity_map = st.entity_map ∧
    (processComponents reg patch e st cs).1.world.next_entity = st.world.next_entity ∧
    (processComponents reg patch e st cs).1.world.records.map Prod.fst =
      st.world.records.map Prod.fst ∧
    (∀ x, x ≠ e →
      alookup (processComponents reg patch e st cs).1.world.records x =
        alookup st.world.records x) ∧
    (∀ x, alookup st.world.records x = none →
      alookup (processComponents reg patch e st cs).1.world.records x = none) := by
  induction cs generalizing st with
  | nil => simp [processComponents]
  | cons c rest ih =>
    rcases hc : processComponent reg patch e st c with ⟨st1, err⟩
    have hstep := processComponent_state reg patch e st c
    rw [hc] at hstep
    cases err with
    | none =>
      have hrest := ih st1
      simp only [processComponents, hc]
      refine ⟨hrest.1.trans hstep.1, hrest.2.1.trans hstep.2.1,
        hrest.2.2.1.trans hstep.2.2.1, ?_, ?_⟩
      · intro x hx
        exact (hrest.2.2.2.1 x hx).trans (hstep.2.2.2.1 x hx)
      · intro x hx
        exact hrest.2.2.2.2 x (hstep.2.2.2.2 x hx)
    | some e2 =>
      simp only [processComponents, hc]
      exact hstep

theorem processEntity_evolution (reg : Registry) (ig : List Nat)
    (stpm : WriteSt × List PatchEntity) (pe : PrefabEntity) :
    (∃ ext, (processEntity reg ig stpm pe).1.1.entity_map = stpm.1.entity_map ++ ext) ∧
    stpm.1.world.next_entity ≤ (processEntity reg ig stpm pe).1.1.world.next_entity ∧
    (∀ x, x < stpm.1.world.next_entity → alookup stpm.1.world.records x = none →
      alookup (processEntity reg ig stpm pe).1.1.world.records x = none) ∧
    (∀ q, q ∈ (processEntity reg ig stpm pe).1.2 → q ∈ stpm.2) := by
  obtain ⟨st, pm⟩ := stpm
  by_cases hig : ig.contains pe.entity = true
  · have higm : pe.entity ∈ ig := by simpa using hig
    refine ⟨⟨[], by simp [processEntity, higm]⟩, ?_, ?_, ?_⟩ <;>
      simp [processEntity, higm]
  · have higm : pe.entity ∉ ig := by simpa using hig
    rcases hr : resolveEntity st pe.entity with ⟨e, st1⟩
    rcases hd : patchMapRemove pm pe.entity with ⟨patch, pm1⟩
    rcases hc : processComponents reg patch e st1
        (pe.components ++ patchAppend patch) with ⟨st2, err⟩
    have hpe : processEntity reg ig (st, pm) pe = ((st2, pm1), err) := by
      simp [processEntity, higm, hr, hd, hc]
    have hcs := processComponents_state reg patch e st1
      (pe.components ++ patchAppend patch)
    rw [hc] at hcs
    have hres : (∃ ext, st1.entity_map = st.entity_map ++ ext) ∧
        st.world.next_entity ≤ st1.world.next_entity ∧
        (∀ x, x < st.world.next_entity → alookup st.world.records x = none →
          alookup st1.world.records x = none) := by
      cases hl : alookup st.entity_map pe.entity with
      | some e0 =>
        rw [resolveEntity_hit hl] at hr
        cases hr
        exact ⟨⟨[], by simp⟩, le_refl _, fun x _ hx2 => hx2⟩
      | none =>
        rw [resolveEntity_miss hl] at hr
        cases hr
        refine ⟨⟨[(pe.entity, st.world.next_entity)], rfl⟩, by simp, ?_⟩
        intro x hx1 hx2
        rw [alookup_append_none _ hx2]
        have : ¬ st.world.next_entity = x := fun h => absurd (h ▸ hx1) (lt_irrefl _)
        simp [alookup, this]
    rw [hpe]
    obtain ⟨⟨ext1, hext1⟩, hle1, habs1⟩ := hres
    refine ⟨⟨ext1, by rw [hcs.1, hext1]⟩, ?_, ?_, ?_⟩
    · calc st.world.next_entity ≤ st1.world.next_entity := hle1
        _ = _ := hcs.2.1.symm
    · intro x hx1 hx2
      exact hcs.2.2.2.2 x (habs1 x hx1 hx2)
    · intro q hq
      simp at hq
      exact patchMapRemove_snd_mem (hd ▸ hq : q ∈ (patchMapRemove pm pe.entity).2)

theorem processEntities_evolution (reg : Registry) (ig : List Nat)
    (stpm : WriteSt × List PatchEntity) (es : List PrefabEntity) :
    (∃ ext, (processEntities reg ig stpm es).1.1.entity_map = stpm.1.entity_map ++ ext) ∧
    stpm.1.world.next_entity ≤ (processEntities reg ig stpm es).1.1.world.next_entity ∧
    (∀ x, x < stpm.1.world.next_entity → alookup stpm.1.world.records x = none →
      alookup (processEntities reg ig stpm es).1.1.world.records x = none) ∧
    (∀ q, q ∈ (processEntities reg ig stpm es).1.2 → q ∈ stpm.2) := by
  induction es generalizing stpm with
  | nil =>
    refine ⟨⟨[], by simp [processEntities]⟩, ?_, ?_, ?_⟩ <;> simp [processEntities]
  | cons pe rest ih =>
    rcases hp : processEntity reg ig stpm pe with ⟨stpm1, err⟩
    have hstep := processEntity_evolution reg ig stpm pe
    rw [hp] at hstep
    obtain ⟨⟨ext1, hext1⟩, hle1, habs1, hsub1⟩ := hstep
    cases err with
    | none =>
      have hrest := ih stpm1
      obtain ⟨⟨ext2, hext2⟩, hle2, habs2, hsub2⟩ := hrest
      simp only [processEntities, hp]
      refine ⟨⟨ext1 ++ ext2, by rw [hext2, hext1, List.append_assoc]⟩,
        le_trans hle1 hle2, ?_, ?_⟩
      · intro x hx1 hx2
        exact habs2 x (lt_of_lt_of_le hx1 hle1) (habs1 x hx1 hx2)
      · intro q hq
        exact hsub1 q (hsub2 q hq)
    | some e2 =>
      simp only [processEntities, hp]
      exact ⟨⟨ext1, hext1⟩, hle1, habs1, hsub1⟩

theorem processLeftoverEntity_evolution (reg : Registry) (st : WriteSt) (p : PatchEntity) :
    (∃ ext, (processLeftoverEntity reg st p).1.entity_map = st.entity_map ++ ext) ∧
    st.world.next_entity ≤ (processLeftoverEntity reg st p).1.world.next_entity ∧
    (∀ x, x < st.world.next_entity → alookup st.world.records x = none →
      alookup (processLeftoverEntity reg st p).1.world.records x = none) := by
  rcases hr : resolveEntity st p.entity with ⟨e, st1⟩
  have hle : processLeftoverEntity reg st p = processComponents reg none e st1 p.append := by
    simp [processLeftoverEntity, hr]
  have hcs := processComponents_state reg none e st1 p.append
  have hres : (∃ ext, st1.entity_map = st.entity_map ++ ext) ∧
      st.world.next_entity ≤ st1.world.next_entity ∧
      (∀ x, x < st.world.next_entity → alookup st.world.records x = none →
        alookup st1.world.records x = none) := by
    cases hl : alookup st.entity_map p.entity with
    | some e0 =>
      rw [resolveEntity_hit hl] at hr
      cases hr
      exact ⟨⟨[], by simp⟩, le_refl _, fun x _ hx2 => hx2⟩
    | none =>
      rw [resolveEntity_miss hl] at hr
      cases hr
      refine ⟨⟨[(p.entity, st.world.next_entity)], rfl⟩, by simp, ?_⟩
      intro x hx1 hx2
      rw [alookup_append_none _ hx2]
      have : ¬ st.world.next_entity = x := fun h => absurd (h ▸ hx1) (lt_irrefl _)
      simp [alookup, this]
  rw [hle]
  obtain ⟨⟨ext1, hext1⟩, hle1, habs1⟩ := hres
  refine ⟨⟨ext1, by rw [hcs.1, hext1]⟩, ?_, ?_⟩
  · calc st.world.next_entity ≤ st1.world.next_entity := hle1
      _ = _ := hcs.2.1.symm
  · intro x hx1 hx2
    exact hcs.2.2.2.2 x (habs1 x hx1 hx2)

theorem processLeftovers_evolution (reg : Registry) (st : WriteSt)
    (pm : List PatchEntity) :
    (∃ ext, (processLeftovers reg st pm).1.entity_map = st.entity_map ++ ext) ∧
    st.world.next_entity ≤ (processLeftovers reg st pm).1.world.next_entity ∧
    (∀ x, x < st.world.next_entity → alookup st.world.records x = none →
      alookup (processLeftovers reg st pm).1.world.records x = none) := by
  induction pm generalizing st with
  | nil =>
    refine ⟨⟨[], by simp [processLeftovers]⟩, ?_, ?_⟩ <;> simp [processLeftovers]
  | cons p rest ih =>
    rcases hp : processLeftoverEntity reg st p with ⟨st1, err⟩
    have hstep := processLeftoverEntity_evolution reg st p
    rw [hp] at hstep
    obtain ⟨⟨ext1, hext1⟩, hle1, habs1⟩ := hstep
    cases err with
    | none =>
      have hrest := ih st1
      obtain ⟨⟨ext2, hext2⟩, hle2, habs2⟩ := hrest
      simp only [processLeftovers, hp]
      refine ⟨⟨ext1 ++ ext2, by rw [hext2, hext1, List.append_assoc]⟩,
        le_trans hle1 hle2, ?_⟩
      intro x hx1 hx2
      exact habs2 x (lt_of_lt_of_le hx1 hle1) (habs1 x hx1 hx2)
    | some e2 =>
      simp only [processLeftovers, hp]
      exact ⟨⟨ext1, hext1⟩, hle1, habs1⟩

theorem mapEntitiesRewrite_state (em : List (Nat × Nat)) (n : String) (w : World)
    (e : Nat) :
    (mapEntitiesRewrite em n w e).next_entity = w.next_entity ∧
    (mapEntitiesRewrite em n w e).records.map Prod.fst = w.records.map Prod.fst ∧
    (∀ x, alookup w.records x = none → alookup (mapEntitiesRewrite em n w e).records x = none) := by
  refine ⟨rfl, setRecord_keys _ _ _, ?_⟩
  intro x hx
  show alookup (setRecord w.records e _) x = none
  rw [alookup_setRecord]
  by_cases hxe : x = e
  · subst hxe
    simp [hx]
  · simp [hxe, hx]

theorem applyMapEntitiesFor_state (em : List (Nat × Nat)) (n : String) (w : World)
    (es : List Nat) :
    (applyMapEntitiesFor em n w es).next_entity = w.next_entity ∧
    (applyMapEntitiesFor em n w es).records.map Prod.fst = w.records.map Prod.fst ∧
    (∀ x, alookup w.records x = none →
      alookup (applyMapEntitiesFor em n w es).records x = none) := by
  induction es generalizing w with
  | nil => exact ⟨rfl, rfl, fun x hx => hx⟩
  | cons e rest ih =>
    have hstep := mapEntitiesRewrite_state em n w e
    have hrest := ih (mapEntitiesRewrite em n w e)
    refine ⟨hrest.1.trans hstep.1, hrest.2.1.trans hstep.2.1, ?_⟩
    intro x hx
    exact hrest.2.2 x (hstep.2.2 x hx)

theorem applySceneMappings_state (reg : Registry) (em : List (Nat × Nat)) (w : World)
    (sm : List (String × List Nat)) :
    (applySceneMappings reg em w sm).next_entity = w.next_entity ∧
    (applySceneMappings reg em w sm).records.map Prod.fst = w.records.map Prod.fst ∧
    (∀ x, alookup w.records x = none →
      alookup (applySceneMappings reg em w sm).records x = none) := by
  induction sm generalizing w with
  | nil => exact ⟨rfl, rfl, fun x hx => hx⟩
  | cons b rest ih =>
    obtain ⟨n, es⟩ := b
    cases hr : alookup reg n with
    | none =>
      have hrest := ih w
      simpa [applySceneMappings, hr] using hrest
    | some r =>
      by_cases hm : r.map_entities = true
      · have hstep := applyMapEntitiesFor_state em n w es
        have hrest := ih (applyMapEntitiesFor em n w es)
        refine ⟨?_, ?_, ?_⟩ <;> simp only [applySceneMappings, hr, hm, if_pos]
        · exact hrest.1.trans hstep.1
        · exact hrest.2.1.trans hstep.2.1
        · intro x hx
          exact hrest.2.2 x (hstep.2.2 x hx)
      · have hrest := ih w
        simpa [applySceneMappings, hr, hm] using hrest

theorem writeToWorld_evolution (reg : Registry) (patch : Patch) (prefab : Prefab)
    (w : World) (em : List (Nat × Nat)) :
    (∃ ext, (writeToWorld reg patch prefab w em).entity_map = em ++ ext) ∧
    w.next_entity ≤ (writeToWorld reg patch prefab w em).world.next_entity ∧
    (∀ x, x < w.next_entity → alookup w.records x = none →
      alookup (writeToWorld reg patch prefab w em).world.records x = none) := by
  rcases h1 : processEntities reg patch.ignore (⟨w, em, []⟩, collectPatchMap patch.modify)
      prefab.entities with ⟨⟨st1, pm1⟩, err1⟩
  have he := processEntities_evolution reg patch.ignore
    (⟨w, em, []⟩, collectPatchMap patch.modify) prefab.entities
  rw [h1] at he
  obtain ⟨⟨ext1, hext1⟩, hle1, habs1, _⟩ := he
  cases err1 with
  | some e1 =>
    refine ⟨⟨ext1, ?_⟩, ?_, ?_⟩ <;> simp only [writeToWorld, h1]
    · exact hext1
    · exact hle1
    · exact habs1
  | none =>
    rcases h2 : processLeftovers reg st1 pm1 with ⟨st2, err2⟩
    have hl := processLeftovers_evolution reg st1 pm1
    rw [h2] at hl
    obtain ⟨⟨ext2, hext2⟩, hle2, habs2⟩ := hl
    cases err2 with
    | some e2 =>
      refine ⟨⟨ext1 ++ ext2, ?_⟩, ?_, ?_⟩ <;> simp only [writeToWorld, h1, h2]
      · rw [hext2, hext1, List.append_assoc]
      · exact le_trans hle1 hle2
      · intro x hx1 hx2
        exact habs2 x (lt_of_lt_of_le hx1 hle1) (habs1 x hx1 hx2)
    | none =>
      have hs := applySceneMappings_state reg st2.entity_map st2.world st2.scene_mappings
      refine ⟨⟨ext1 ++ ext2, ?_⟩, ?_, ?_⟩ <;> simp only [writeToWorld, h1, h2]
      · rw [hext2, hext1, List.append_assoc]
      · rw [hs.1]
        exact le_trans hle1 hle2
      · intro x hx1 hx2
        exact hs.2.2 x (habs2 x (lt_of_lt_of_le hx1 hle1) (habs1 x hx1 hx2))

/-- C5: with snapshot entity `{local_id:1, Position{x:0,y:0}}` and patch
`modify:[{entity:1, modify:{"Position":{"x":5}}}]`, `write()` applies the
field-path override onto a clone of the snapshot value: the live record
mapped from local_id 1 holds `Position{x:5,y:0}` (overridden field changed,
untouched field preserved), and the snapshot itself still holds its
original value. -/
theorem claim_C5_modify_scenario :
    (writeToWorld regPos patchModifyX5 prefabPos ⟨0, []⟩ []).error = none ∧
    alookup (writeToWorld regPos patchModifyX5 prefabPos ⟨0, []⟩ []).entity_map 1 = some 0 ∧
    alookup (writeToWorld regPos patchModifyX5 prefabPos ⟨0, []⟩ []).world.records 0 =
      some ⟨[⟨"Position", [("x", 5), ("y", 0)]⟩], none⟩ ∧
    prefabPos = ⟨[⟨1, [⟨"Position", [("x", 0), ("y", 0)]⟩]⟩]⟩ := by
  decide

/-- C1 is false on the code: entity 1 is in `patch.ignore`, yet because the
matching patch entity is never drained from the patch map, the
leftover-patch loop still creates a live record for local_id 1 carrying the
`append` value, and the call leaves a fresh remap entry for local_id 1. -/
theorem claim_C1_counterexample :
    patchIgnoreAppend.ignore.contains 1 = true ∧
    alookup (writeToWorld regPos patchIgnoreAppend prefabPos ⟨0, []⟩ []).entity_map 1 =
      some 0 ∧
    alookup (writeToWorld regPos patchIgnoreAppend prefabPos ⟨0, []⟩ []).world.records 0 =
      some ⟨[⟨"Position", [("x", 7), ("y", 7)]⟩], none⟩ := by
  decide

theorem processEntity_lid_none {reg : Registry} {ig : List Nat}
    {stpm : WriteSt × List PatchEntity} {pe : PrefabEntity} {lid : Nat}
    (hig : lid ∈ ig) (h : alookup stpm.1.entity_map lid = none) :
    alookup (processEntity reg ig stpm pe).1.1.entity_map lid = none := by
  obtain ⟨st, pm⟩ := stpm
  by_cases higc : ig.contains pe.entity = true
  · have higm : pe.entity ∈ ig := by simpa using higc
    simpa [processEntity, higm] using h
  · have hne : ¬ pe.entity = lid := by
      intro heq
      exact higc (by simpa [heq] using hig)
    rcases hr : resolveEntity st pe.entity with ⟨e, st1⟩
    rcases hd : patchMapRemove pm pe.entity with ⟨patch, pm1⟩
    rcases hc : processComponents reg patch e st1 (pe.components ++ patchAppend patch)
      with ⟨st2, err⟩
    have higm : pe.entity ∉ ig := by simpa using higc
    have hpe : processEntity reg ig (st, pm) pe = ((st2, pm1), err) := by
      simp [processEntity, higm, hr, hd, hc]
    have hst1 : alookup st1.entity_map lid = none := by
      cases hl : alookup st.entity_map pe.entity with
      | some e0 =>
        rw [resolveEntity_hit hl] at hr
        cases hr
        exact h
      | none =>
        rw [resolveEntity_miss hl] at hr
        cases hr
        show alookup (st.entity_map ++ [(pe.entity, st.world.next_entity)]) lid = none
        rw [alookup_append_none _ h]
        simp [alookup, hne]
    have hcs := processComponents_state reg patch e st1 (pe.components ++ patchAppend patch)
    rw [hc] at hcs
    rw [hpe]
    show alookup st2.entity_map lid = none
    rw [hcs.1]
    exact hst1

theorem processEntities_lid_none {reg : Registry} {ig : List Nat}
    {stpm : WriteSt × List PatchEntity} {es : List PrefabEntity} {lid : Nat}
    (hig : lid ∈ ig) (h : alookup stpm.1.entity_map lid = none) :
    alookup (processEntities reg ig stpm es).1.1.entity_map lid = none := by
  induction es generalizing stpm with
  | nil => simpa [processEntities] using h
  | cons pe rest ih =>
    rcases hp : processEntity reg ig stpm pe with ⟨stpm1, err⟩
    have hstep := @processEntity_lid_none reg ig stpm pe lid hig h
    rw [hp] at hstep
    cases err with
    | none =>
      simp only [processEntities, hp]
      exact ih hstep
    | some e2 =>
      simp only [processEntities, hp]
      exact hstep

theorem processLeftovers_lid_none {reg : Registry} {st : WriteSt}
    {pm : List PatchEntity} {lid : Nat}
    (hpm : ∀ p ∈ pm, p.entity ≠ lid) (h : alookup st.entity_map lid = none) :
    alookup (processLeftovers reg st pm).1.entity_map lid = none := by
  induction pm generalizing st with
  | nil => simpa [processLeftovers] using h
  | cons p rest ih =>
    rcases hr : resolveEntity st p.entity with ⟨e, st1⟩
    rcases hc : processComponents reg none e st1 p.append with ⟨st2, err⟩
    have hple : processLeftoverEntity reg st p = (st2, err) := by
      simp [processLeftoverEntity, hr, hc]
    have hst1 : alookup st1.entity_map lid = none := by
      cases hl : alookup st.entity_map p.entity with
      | some e0 =>
        rw [resolveEntity_hit hl] at hr
        cases hr
        exact h
      | none =>
        rw [resolveEntity_miss hl] at hr
        cases hr
        show alookup (st.entity_map ++ [(p.entity, st.world.next_entity)]) lid = none
        rw [alookup_append_none _ h]
        have : ¬ p.entity = lid := hpm p (by simp)
        simp [alookup, this]
    have hcs := processComponents_state reg none e st1 p.append
    rw [hc] at hcs
    have hst2 : alookup st2.entity_map lid = none := by
      rw [hcs.1]
      exact hst1
    cases err with
    | none =>
      simp only [processLeftovers, hple]
      exact ih (fun q hq => hpm q (List.mem_cons_of_mem _ hq)) hst2
    | some e2 =>
      simp only [processLeftovers, hple]
      exact hst2

/-- C1 (amended): an entity whose `local_id` is in `patch.ignore` is skipped
by the snapshot loop, so — provided no `PatchEntity` shares that `local_id`
— the call creates no remap entry for it, and hence no live record is
created or touched for that `local_id`.  (As stated the claim is false: a
matching `PatchEntity` with the same `local_id` survives in the patch map
and the leftover-patch loop creates a record for it, see the
counterexample.) -/
theorem claim_C1_amended (reg : Registry) (patch : Patch) (prefab : Prefab)
    (w : World) (em : List (Nat × Nat)) (lid : Nat)
    (hig : lid ∈ patch.ignore)
    (hnp : ∀ p ∈ patch.modify, p.entity ≠ lid)
    (hem : alookup em lid = none) :
    alookup (writeToWorld reg patch prefab w em).entity_map lid = none := by
  rcases h1 : processEntities reg patch.ignore (⟨w, em, []⟩, collectPatchMap patch.modify)
      prefab.entities with ⟨⟨st1, pm1⟩, err1⟩
  have hsub := (processEntities_evolution reg patch.ignore
    (⟨w, em, []⟩, collectPatchMap patch.modify) prefab.entities).2.2.2
  rw [h1] at hsub
  have hst1 : alookup st1.entity_map lid = none := by
    have := @processEntities_lid_none reg patch.ignore
      (⟨w, em, []⟩, collectPatchMap patch.modify) prefab.entities lid hig hem
    rw [h1] at this
    exact this
  cases err1 with
  | some e1 =>
    simp only [writeToWorld, h1]
    exact hst1
  | none =>
    have hpm1 : ∀ p ∈ pm1, p.entity ≠ lid := by
      intro p hp
      exact hnp p (collectPatchMap_mem (hsub p hp))
    rcases h2 : processLeftovers reg st1 pm1 with ⟨st2, err2⟩
    have hst2 : alookup st2.entity_map lid = none := by
      have := @processLeftovers_lid_none reg st1 pm1 lid hpm1 hst1
      rw [h2] at this
      exact this
    cases err2 with
    | some e2 =>
      simp only [writeToWorld, h1, h2]
      exact hst2
    | none =>
      simp only [writeToWorld, h1, h2]
      exact hst2

/-- Witness for the amended C1 at a concrete input: entity 2 is ignored, no
patch entity shares id 2, and after the call the remap table has no entry
for id 2. -/
theorem claim_C1_amended_witness :
    alookup (writeToWorld regPos ⟨"", [⟨1, [], [("Position", [("x", 5)])], []⟩], [2]⟩
      ⟨[⟨1, [⟨"Position", [("x", 0), ("y", 0)]⟩]⟩, ⟨2, [⟨"Position", [("x", 3), ("y", 3)]⟩]⟩]⟩
      ⟨0, []⟩ []).entity_map 2 = none :=
  claim_C1_amended regPos ⟨"", [⟨1, [], [("Position", [("x", 5)])], []⟩], [2]⟩
    ⟨[⟨1, [⟨"Position", [("x", 0), ("y", 0)]⟩]⟩, ⟨2, [⟨"Position", [("x", 3), ("y", 3)]⟩]⟩]⟩
    ⟨0, []⟩ [] 2 (by decide) (by decide) (by decide)

theorem decodeComponents_roundtrip {reg : Registry} {cs : List Value}
    (h : ∀ c ∈ cs, (alookup reg c.type_name).isSome) :
    decodeComponents reg (cs.map (fun c => (c.type_name, c.fields))) = .ok cs := by
  induction cs with
  | nil => simp [decodeComponents]
  | cons c rest ih =>
    have hc := h c (by simp)
    obtain ⟨r, hr⟩ := Option.isSome_iff_exists.1 hc
    have hrest := ih (fun c2 h2 => h c2 (List.mem_cons_of_mem _ h2))
    simp [decodeComponents, hr, hrest]

/-- C7: for every snapshot all of whose value type names are registered,
decoding the encoding yields the snapshot back exactly — the same entities
in the same order, each with the same values by type name and deep value
equality. -/
theorem claim_C7_roundtrip (reg : Registry) (s : Prefab)
    (hreg : ∀ pe ∈ s.entities, ∀ c ∈ pe.components, (alookup reg c.type_name).isSome) :
    decodePrefab reg (encodePrefab s) = .ok s := by
  obtain ⟨es⟩ := s
  have : ∀ l : List PrefabEntity,
      (∀ pe ∈ l, ∀ c ∈ pe.components, (alookup reg c.type_name).isSome) →
      decodeEntities reg (l.map (fun pe =>
        (pe.entity, pe.components.map (fun c => (c.type_name, c.fields))))) = .ok l := by
    intro l
    induction l with
    | nil =>
      intro _
      simp [decodeEntities]
    | cons pe rest ih =>
      intro hl
      have hpe := decodeComponents_roundtrip (hl pe (by simp))
      have hrest := ih (fun pe2 h2 => hl pe2 (List.mem_cons_of_mem _ h2))
      simp [decodeEntities, hpe, hrest]
  have h2 := this es hreg
  simp [decodePrefab, encodePrefab, h2, Except.map]

/-- Witness for C7 at a concrete snapshot with a registered type. -/
theorem claim_C7_roundtrip_witness :
    decodePrefab regPos (encodePrefab prefabPos) = .ok prefabPos :=
  claim_C7_roundtrip regPos prefabPos (by decide)

/-- C2: `write()` returns the first error it hits and stops at once.
Conjuncts: (1) a component loop that errs on a prefix is unaffected by the
remaining values — no further values of that entity are processed and the
state is exactly the state at the error; (2) likewise for the entity loop —
no further entities are processed and mutations already made are retained
(no rollback); (3) an error in the entity loop is returned as the result of
the whole `write_to_world` call, with the partially mutated collection and
remap table; (4) a type name absent from the registry produces
`UnregisteredType`; (5) a failing `modify` entry stops the call with the
path error; (6) a `modify` field path not resolving against the cloned
value produces `PatchContainsWrongPath`. -/
theorem claim_C2_first_error_stops :
    (∀ (reg : Registry) (patch : Option PatchEntity) (e : Nat) (st : WriteSt)
      (cs1 cs2 : List Value) (st1 : WriteSt) (err : PrefabError),
      processComponents reg patch e st cs1 = (st1, some err) →
      processComponents reg patch e st (cs1 ++ cs2) = (st1, some err)) ∧
    (∀ (reg : Registry) (ig : List Nat) (stpm stpm1 : WriteSt × List PatchEntity)
      (es1 es2 : List PrefabEntity) (err : PrefabError),
      processEntities reg ig stpm es1 = (stpm1, some err) →
      processEntities reg ig stpm (es1 ++ es2) = (stpm1, some err)) ∧
    (∀ (reg : Registry) (patch : Patch) (prefab : Prefab) (w : World)
      (em : List (Nat × Nat)) (st1 : WriteSt) (pm1 : List PatchEntity) (err : PrefabError),
      processEntities reg patch.ignore (⟨w, em, []⟩, collectPatchMap patch.modify)
        prefab.entities = ((st1, pm1), some err) →
      writeToWorld reg patch prefab w em = ⟨st1.world, st1.entity_map, some err⟩) ∧
    (∀ (reg : Registry) (e : Nat) (st : WriteSt) (c : Value),
      alookup reg c.type_name = none →
      processComponent reg none e st c = (st, some (.unregisteredType c.type_name))) ∧
    (∀ (reg : Registry) (p : PatchEntity) (e : Nat) (st : WriteSt) (c : Value)
      (m : List (String × Nat)) (err : PrefabError),
      p.remove.contains c.type_name = false →
      alookup p.modify c.type_name = some m →
      applyPatchPaths m c = .error err →
      processComponent reg (some p) e st c = (st, some err)) ∧
    (∀ (path : String) (ov : Nat) (rest : List (String × Nat)) (v : Value),
      (v.fields.map Prod.fst).contains path = false →
      applyPatchPaths ((path, ov) :: rest) v =
        .error (.patchContainsWrongPath path invalidPathMsg)) := by
  refine ⟨?_, ?_, ?_, ?_, ?_, ?_⟩
  · intro reg patch e st cs1 cs2 st1 err h
    induction cs1 generalizing st with
    | nil => simp [processComponents] at h
    | cons c rest ih =>
      rcases hc : processComponent reg patch e st c with ⟨stA, errA⟩
      rw [processComponents, hc] at h
      cases errA with
      | none =>
        rw [List.cons_append, processComponents, hc]
        exact ih stA h
      | some e2 =>
        rw [List.cons_append, processComponents, hc]
        exact h
  · intro reg ig stpm stpm1 es1 es2 err h
    induction es1 generalizing stpm with
    | nil => simp [processEntities] at h
    | cons pe rest ih =>
      rcases hp : processEntity reg ig stpm pe with ⟨stpmA, errA⟩
      rw [processEntities, hp] at h
      cases errA with
      | none =>
        rw [List.cons_append, processEntities, hp]
        exact ih stpmA h
      | some e2 =>
        rw [List.cons_append, processEntities, hp]
        exact h
  · intro reg patch prefab w em st1 pm1 err h
    simp only [writeToWorld, h]
  · intro reg e st c h
    simp [processComponent, insertStep, h]
  · intro reg p e st c m err h1 h2 h3
    have h1m : c.type_name ∉ p.remove := by simpa using h1
    simp [processComponent, h1m, h2, h3]
  · intro path ov rest v h
    have hne : ¬ ((v.fields.map Prod.fst).contains path = true) := by
      intro hc
      rw [h] at hc
      cases hc
    simp only [applyPatchPaths]
    rw [if_neg hne]

/-- Witness for C2 at concrete inputs: a component of the unregistered type
X errs with `UnregisteredType`, the remaining components of the entity are
not processed and the state is unchanged; a missing field path errs with
`PatchContainsWrongPath`. -/
theorem claim_C2_witness :
    processComponents regPos none 0 ⟨⟨0, []⟩, [], []⟩
      ([⟨"X", []⟩] ++ [⟨"Position", [("x", 1), ("y", 1)]⟩]) =
      (⟨⟨0, []⟩, [], []⟩, some (.unregisteredType "X")) ∧
    processComponent regPos none 0 ⟨⟨0, []⟩, [], []⟩ ⟨"X", []⟩ =
      (⟨⟨0, []⟩, [], []⟩, some (.unregisteredType "X")) ∧
    applyPatchPaths [("z", 5)] ⟨"Position", [("x", 0), ("y", 0)]⟩ =
      .error (.patchContainsWrongPath "z" invalidPathMsg) := by
  refine ⟨?_, ?_, ?_⟩
  · exact claim_C2_first_error_stops.1 regPos none 0 ⟨⟨0, []⟩, [], []⟩
      [⟨"X", []⟩] [⟨"Position", [("x", 1), ("y", 1)]⟩] ⟨⟨0, []⟩, [], []⟩
      (.unregisteredType "X") (by decide)
  · exact claim_C2_first_error_stops.2.2.2.1 regPos 0 ⟨⟨0, []⟩, [], []⟩ ⟨"X", []⟩
      (by decide)
  · exact claim_C2_first_error_stops.2.2.2.2.2 "z" 5 []
      ⟨"Position", [("x", 0), ("y", 0)]⟩ (by decide)

/-! Spawner lemmas. -/

theorem spawnedDespawn_instances_lookup (w : World) (sp : Spawned) (id x : Nat) :
    alookup (spawnedDespawn w sp id).2.instances x =
      if id = x then none else alookup sp.instances x := by
  cases h : alookup sp.instances id with
  | some info =>
    simp [spawnedDespawn, h, alookup_removeKey]
  | none =>
    by_cases hx : id = x
    · subst hx
      simp [spawnedDespawn, h]
    · simp [spawnedDespawn, h, hx]

theorem despawnPhase_instances_none {ws : World × Spawned} {ids : List Nat} {id : Nat}
    (h : alookup ws.2.instances id = none) :
    alookup (despawnPhase ws ids).2.instances id = none := by
  induction ids generalizing ws with
  | nil => simpa [despawnPhase] using h
  | cons id0 rest ih =>
    obtain ⟨w, sp⟩ := ws
    show alookup (despawnPhase (spawnedDespawn w sp id0) rest).2.instances id = none
    apply ih
    rw [spawnedDespawn_instances_lookup]
    by_cases h0 : id0 = id <;> simp [h0, h]

theorem despawnPhase_removes {ws : World × Spawned} {ids : List Nat} {id : Nat}
    (h : id ∈ ids) :
    alookup (despawnPhase ws ids).2.instances id = none := by
  induction ids generalizing ws with
  | nil => simp at h
  | cons id0 rest ih =>
    obtain ⟨w, sp⟩ := ws
    by_cases h0 : id0 = id
    · subst h0
      show alookup (despawnPhase (spawnedDespawn w sp id0) rest).2.instances id0 = none
      apply despawnPhase_instances_none
      rw [spawnedDespawn_instances_lookup]
      simp
    · rcases List.mem_cons.1 h with h1 | h1
      · exact absurd h1.symm h0
      · exact ih h1

/-- C10: `is_ready` and `info` read the same `instances` map: `is_ready(id)`
holds exactly when `info(id)` is `Some`.  Right after an asynchronous
`spawn()` — the request still only queued in `to_spawn`, the minted id not
yet an instance — both give `false`/`None`; and after the despawn phase of a
maintenance tick processes a queued despawn, both give `false`/`None` again. -/
theorem claim_C10_is_ready_iff_info :
    (∀ (s : PrefabSpawner) (id : Nat),
      s.isReady id = true ↔ (s.infoOf id).isSome = true) ∧
    (∀ (s : PrefabSpawner) (h : Nat) (p : Option Nat),
      alookup s.spawned.instances s.next_id = none →
      (s.spawnRequest h p).2.isReady (s.spawnRequest h p).1 = false ∧
      (s.spawnRequest h p).2.infoOf (s.spawnRequest h p).1 = none) ∧
    (∀ (w : World) (sp : Spawned) (ids : List Nat) (id : Nat)
      (ts : List (Nat × Nat)) (td : List Nat) (wp : List (Nat × Nat))
      (up : List Nat) (ni : Nat),
      id ∈ ids →
      PrefabSpawner.isReady ⟨(despawnPhase (w, sp) ids).2, ts, td, wp, up, ni⟩ id = false ∧
      PrefabSpawner.infoOf ⟨(despawnPhase (w, sp) ids).2, ts, td, wp, up, ni⟩ id = none) := by
  refine ⟨?_, ?_, ?_⟩
  · intro s id
    simp [PrefabSpawner.isReady, PrefabSpawner.infoOf]
  · intro s h p hfresh
    constructor
    · simp [PrefabSpawner.spawnRequest, PrefabSpawner.isReady, hfresh]
    · simp [PrefabSpawner.spawnRequest, PrefabSpawner.infoOf, hfresh]
  · intro w sp ids id ts td wp up ni hmem
    have h := @despawnPhase_removes (w, sp) ids id hmem
    constructor
    · simp [PrefabSpawner.isReady, h]
    · simp [PrefabSpawner.infoOf, h]

/-- Witness for C10 at concrete inputs: a spawner with one live instance,
a freshly minted request id, and a despawn of the live instance. -/
theorem claim_C10_witness :
    ((⟨⟨[(9, [3])], [(3, ⟨[(1, 0)]⟩)]⟩, [], [], [], [], 4⟩ : PrefabSpawner).isReady 3 = true ↔
      ((⟨⟨[(9, [3])], [(3, ⟨[(1, 0)]⟩)]⟩, [], [], [], [], 4⟩ : PrefabSpawner).infoOf 3).isSome
        = true) ∧
    (((⟨⟨[], []⟩, [], [], [], [], 7⟩ : PrefabSpawner).spawnRequest 9 none).2.isReady
      ((⟨⟨[], []⟩, [], [], [], [], 7⟩ : PrefabSpawner).spawnRequest 9 none).1 = false) ∧
    PrefabSpawner.isReady
      ⟨(despawnPhase (⟨1, [(0, ⟨[], none⟩)]⟩, ⟨[(9, [3])], [(3, ⟨[(1, 0)]⟩)]⟩) [3]).2,
       [], [], [], [], 4⟩ 3 = false := by
  refine ⟨?_, ?_, ?_⟩
  · exact claim_C10_is_ready_iff_info.1 ⟨⟨[(9, [3])], [(3, ⟨[(1, 0)]⟩)]⟩, [], [], [], [], 4⟩ 3
  · exact (claim_C10_is_ready_iff_info.2.1 ⟨⟨[], []⟩, [], [], [], [], 7⟩ 9 none (by decide)).1
  · exact (claim_C10_is_ready_iff_info.2.2 ⟨1, [(0, ⟨[], none⟩)]⟩ ⟨[(9, [3])], [(3, ⟨[(1, 0)]⟩)]⟩
      [3] 3 [] [] [] [] 4 (by decide)).1

theorem insertKey_fresh {κ α : Type} [DecidableEq κ] {l : List (κ × α)} {k : κ}
    (v : α) (h : alookup l k = none) : insertKey l k v = l ++ [(k, v)] := by
  induction l with
  | nil => rfl
  | cons p rest ih =>
    obtain ⟨k0, v0⟩ := p
    by_cases hk : k0 = k
    · simp [alookup, hk] at h
    · simp [alookup, hk] at h
      simp [insertKey, hk, ih h]

theorem alookup_none_countP {κ α : Type} [DecidableEq κ] {l : List (κ × α)} {k : κ}
    (h : alookup l k = none) : l.countP (fun q => q.1 == k) = 0 := by
  induction l with
  | nil => rfl
  | cons p rest ih =>
    obtain ⟨k0, v0⟩ := p
    by_cases hk : k0 = k
    · simp [alookup, hk] at h
    · simp [alookup, hk] at h
      simp [List.countP_cons, hk, ih h]

theorem spawnPhase_kept_mem {reg : Registry} {assets : Assets} {w : World}
    {sp : Spawned} {l : List (Nat × Nat)} {h id : Nat}
    (hassets : alookup assets h = none) (hmem : (h, id) ∈ l) :
    (h, id) ∈ (spawnPhase reg assets w sp l).kept := by
  induction l generalizing w sp with
  | nil => simp at hmem
  | cons q rest ih =>
    obtain ⟨h0, id0⟩ := q
    rcases List.mem_cons.1 hmem with h1 | h1
    · have hh : h = h0 := congrArg Prod.fst h1
      have hid : id = id0 := congrArg Prod.snd h1
      subst hh
      subst hid
      have hi : infoSpawn reg assets w ⟨[]⟩ h = ((w, ⟨[]⟩), some (.nonExistentPrefab h)) := by
        simp [infoSpawn, hassets]
      simp [spawnPhase, hi]
    · rcases hi : infoSpawn reg assets w ⟨[]⟩ h0 with ⟨⟨w1, info⟩, err⟩
      cases err with
      | none =>
        simp only [spawnPhase, hi]
        exact ih h1
      | some e =>
        cases e with
        | nonExistentPrefab h2 =>
          simp only [spawnPhase, hi]
          exact List.mem_cons_of_mem _ (ih h1)
        | unregisteredComponent n =>
          simp only [spawnPhase, hi]
          exact ih h1
        | unregisteredType n =>
          simp only [spawnPhase, hi]
          exact ih h1
        | patchContainsWrongPath p2 e2 =>
          simp only [spawnPhase, hi]
          exact ih h1

/-- C8: in the spawn phase of a maintenance tick, (1) a request whose
snapshot handle does not resolve is kept in the queue untouched, with no
error logged, no instance created and the world unchanged, while the
remaining requests are still processed; (2) any other spawn error drops the
request, logs that one error, creates no instance, and the remaining
requests are still processed; (3) a successful spawn registers the instance
under its id and drops the request; (4) an unregistered fresh instance id is
registered exactly once; and (5) at tick level, an unresolvable request is
still in `to_spawn` after `maintain`, to be retried next tick. -/
theorem claim_C8_retry_and_terminal :
    (∀ (reg : Registry) (assets : Assets) (w : World) (sp : Spawned)
      (h id : Nat) (rest : List (Nat × Nat)),
      alookup assets h = none →
      spawnPhase reg assets w sp ((h, id) :: rest) =
        ⟨(spawnPhase reg assets w sp rest).world,
         (spawnPhase reg assets w sp rest).spawned,
         (h, id) :: (spawnPhase reg assets w sp rest).kept,
         (spawnPhase reg assets w sp rest).log⟩) ∧
    (∀ (reg : Registry) (assets : Assets) (w w1 : World) (sp : Spawned)
      (h id : Nat) (rest : List (Nat × Nat)) (info : PrefabInstanceInfo)
      (err : PrefabError),
      infoSpawn reg assets w ⟨[]⟩ h = ((w1, info), some err) →
      (∀ h2, err ≠ .nonExistentPrefab h2) →
      spawnPhase reg assets w sp ((h, id) :: rest) =
        ⟨(spawnPhase reg assets w1 sp rest).world,
         (spawnPhase reg assets w1 sp rest).spawned,
         (spawnPhase reg assets w1 sp rest).kept,
         err :: (spawnPhase reg assets w1 sp rest).log⟩) ∧
    (∀ (reg : Registry) (assets : Assets) (w w1 : World) (sp : Spawned)
      (h id : Nat) (rest : List (Nat × Nat)) (info : PrefabInstanceInfo),
      infoSpawn reg assets w ⟨[]⟩ h = ((w1, info), none) →
      spawnPhase reg assets w sp ((h, id) :: rest) =
        spawnPhase reg assets w1
          ⟨pushBucket sp.prefabs h id, insertKey sp.instances id info⟩ rest ∧
      alookup (insertKey sp.instances id info) id = some info) ∧
    (∀ (l : List (Nat × PrefabInstanceInfo)) (id : Nat) (info : PrefabInstanceInfo),
      alookup l id = none →
      (insertKey l id info).countP (fun q => q.1 == id) = 1) ∧
    (∀ (reg : Registry) (assets : Assets) (events : List AssetEvent) (w : World)
      (s : PrefabSpawner) (h id : Nat),
      alookup assets h = none → (h, id) ∈ s.to_spawn →
      (h, id) ∈ (maintain reg assets events w s).2.1.to_spawn) := by
  refine ⟨?_, ?_, ?_, ?_, ?_⟩
  · intro reg assets w sp h id rest hassets
    have hi : infoSpawn reg assets w ⟨[]⟩ h = ((w, ⟨[]⟩), some (.nonExistentPrefab h)) := by
      simp [infoSpawn, hassets]
    simp [spawnPhase, hi]
  · intro reg assets w w1 sp h id rest info err hi hne
    cases err with
    | nonExistentPrefab h2 => exact absurd rfl (hne h2)
    | unregisteredComponent n => simp [spawnPhase, hi]
    | unregisteredType n => simp [spawnPhase, hi]
    | patchContainsWrongPath p2 e2 => simp [spawnPhase, hi]
  · intro reg assets w w1 sp h id rest info hi
    constructor
    · simp [spawnPhase, hi]
    · rw [alookup_insertKey]
      simp
  · intro l id info h
    rw [insertKey_fresh info h, List.countP_append]
    rw [alookup_none_countP h]
    simp [List.countP_cons]
  · intro reg assets events w s h id hassets hmem
    show (h, id) ∈ (spawnPhase reg assets
      (despawnPhase (w, s.spawned) s.to_despawn).1
      (despawnPhase (w, s.spawned) s.to_despawn).2 s.to_spawn).kept
    exact spawnPhase_kept_mem hassets hmem

/-- Witness for C8 at concrete inputs: handle 9 unresolvable keeps the
request; a prefab with an unregistered type is dropped and logged; a
resolvable prefab spawns; a fresh id is registered once; the queued request
survives a full maintenance tick. -/
theorem claim_C8_witness :
    spawnPhase regPos [] ⟨0, []⟩ ⟨[], []⟩ [(9, 100)] =
      ⟨⟨0, []⟩, ⟨[], []⟩, [(9, 100)], []⟩ ∧
    (insertKey ([] : List (Nat × PrefabInstanceInfo)) 100 ⟨[(1, 0)]⟩).countP
      (fun q => q.1 == 100) = 1 ∧
    (9, 100) ∈ (maintain regPos [] [] ⟨0, []⟩ ⟨⟨[], []⟩, [(9, 100)], [], [], [], 101⟩).2.1.to_spawn := by
  refine ⟨?_, ?_, ?_⟩
  · have h := claim_C8_retry_and_terminal.1 regPos [] ⟨0, []⟩ ⟨[], []⟩ 9 100 [] (by decide)
    rw [h]
    decide
  · exact claim_C8_retry_and_terminal.2.2.2.1 [] 100 ⟨[(1, 0)]⟩ (by decide)
  · exact claim_C8_retry_and_terminal.2.2.2.2 regPos [] [] ⟨0, []⟩
      ⟨⟨[], []⟩, [(9, 100)], [], [], [], 101⟩ 9 100 (by decide) (by decide)

theorem despawn_alookup (w : World) (e x : Nat) :
    alookup (w.despawn e).records x = if e = x then none else alookup w.records x := by
  exact alookup_removeKey w.records e x

theorem infoDespawn_next (w : World) (info : PrefabInstanceInfo) :
    (infoDespawn w info).next_entity = w.next_entity := by
  show (info.entity_map.foldl (fun acc kv => acc.despawn kv.2) w).next_entity = w.next_entity
  induction info.entity_map generalizing w with
  | nil => rfl
  | cons kv rest ih => exact (ih (w.despawn kv.2)).trans rfl

theorem despawnFold_absent {l : List (Nat × Nat)} {w : World} {x : Nat}
    (h : alookup w.records x = none) :
    alookup (l.foldl (fun acc kv => acc.despawn kv.2) w).records x = none := by
  induction l generalizing w with
  | nil => exact h
  | cons kv rest ih =>
    apply ih
    rw [despawn_alookup]
    by_cases he : kv.2 = x <;> simp [he, h]

theorem infoDespawn_absent {w : World} {info : PrefabInstanceInfo} {x : Nat}
    (h : alookup w.records x = none) : alookup (infoDespawn w info).records x = none :=
  despawnFold_absent h

theorem despawnFold_removes {l : List (Nat × Nat)} {w : World} {kv : Nat × Nat}
    (h : kv ∈ l) :
    alookup (l.foldl (fun acc kv2 => acc.despawn kv2.2) w).records kv.2 = none := by
  induction l generalizing w with
  | nil => simp at h
  | cons kv0 rest ih =>
    rcases List.mem_cons.1 h with h1 | h1
    · subst h1
      show alookup (rest.foldl (fun acc kv2 => acc.despawn kv2.2) (w.despawn kv.2)).records kv.2
        = none
      apply despawnFold_absent
      rw [despawn_alookup]
      simp
    · exact ih h1

theorem infoDespawn_removes {w : World} {info : PrefabInstanceInfo} {kv : Nat × Nat}
    (h : kv ∈ info.entity_map) : alookup (infoDespawn w info).records kv.2 = none :=
  despawnFold_removes h

theorem spawnedDespawn_world (w : World) (sp : Spawned) (id : Nat) :
    (spawnedDespawn w sp id).1.next_entity = w.next_entity ∧
    (∀ x, alookup w.records x = none → alookup (spawnedDespawn w sp id).1.records x = none) := by
  cases h : alookup sp.instances id with
  | some info =>
    constructor
    · simp [spawnedDespawn, h, infoDespawn_next]
    · intro x hx
      simpa [spawnedDespawn, h] using infoDespawn_absent hx
  | none => simp [spawnedDespawn, h]

theorem despawnPhase_world (ws : World × Spawned) (ids : List Nat) :
    (despawnPhase ws ids).1.next_entity = ws.1.next_entity ∧
    (∀ x, alookup ws.1.records x = none → alookup (despawnPhase ws ids).1.records x = none) := by
  induction ids generalizing ws with
  | nil => exact ⟨rfl, fun x hx => hx⟩
  | cons id0 rest ih =>
    obtain ⟨w, sp⟩ := ws
    have hstep := spawnedDespawn_world w sp id0
    have hrest := ih (spawnedDespawn w sp id0)
    exact ⟨hrest.1.trans hstep.1, fun x hx => hrest.2 x (hstep.2 x hx)⟩

theorem despawnPhase_destroys {ws : World × Spawned} {ids : List Nat} {id : Nat}
    {info : PrefabInstanceInfo} (hmem : id ∈ ids)
    (hinst : alookup ws.2.instances id = some info) :
    ∀ kv ∈ info.entity_map, alookup (despawnPhase ws ids).1.records kv.2 = none := by
  induction ids generalizing ws with
  | nil => simp at hmem
  | cons id0 rest ih =>
    obtain ⟨w, sp⟩ := ws
    intro kv hkv
    by_cases h0 : id0 = id
    · subst h0
      show alookup (despawnPhase (spawnedDespawn w sp id0) rest).1.records kv.2 = none
      apply (despawnPhase_world (spawnedDespawn w sp id0) rest).2
      simpa [spawnedDespawn, hinst] using infoDespawn_removes hkv
    · rcases List.mem_cons.1 hmem with h1 | h1
      · exact absurd h1.symm h0
      · have hpres : alookup (spawnedDespawn w sp id0).2.instances id = some info := by
          rw [spawnedDespawn_instances_lookup]
          simp [h0, hinst]
        exact ih h1 hpres kv hkv

theorem infoSpawn_world_evolution (reg : Registry) (assets : Assets) (w : World)
    (info : PrefabInstanceInfo) (h : Nat) :
    w.next_entity ≤ (infoSpawn reg assets w info h).1.1.next_entity ∧
    (∀ x, x < w.next_entity → alookup w.records x = none →
      alookup (infoSpawn reg assets w info h).1.1.records x = none) := by
  cases ha : alookup assets h with
  | none => simp [infoSpawn, ha]
  | some prefab =>
    have he := writeToWorld_evolution reg emptyPatch prefab w info.entity_map
    constructor
    · simpa [infoSpawn, ha] using he.2.1
    · intro x hx1 hx2
      simpa [infoSpawn, ha] using he.2.2 x hx1 hx2

theorem spawnPhase_world (reg : Registry) (assets : Assets) (w : World) (sp : Spawned)
    (l : List (Nat × Nat)) :
    w.next_entity ≤ (spawnPhase reg assets w sp l).world.next_entity ∧
    (∀ x, x < w.next_entity → alookup w.records x = none →
      alookup (spawnPhase reg assets w sp l).world.records x = none) := by
  induction l generalizing w sp with
  | nil => exact ⟨le_refl _, fun x _ hx => hx⟩
  | cons q rest ih =>
    obtain ⟨h0, id0⟩ := q
    rcases hi : infoSpawn reg assets w ⟨[]⟩ h0 with ⟨⟨w1, info⟩, err⟩
    have hstep := infoSpawn_world_evolution reg assets w ⟨[]⟩ h0
    rw [hi] at hstep
    have hcomp : ∀ sp2 : Spawned,
        w.next_entity ≤ (spawnPhase reg assets w1 sp2 rest).world.next_entity ∧
        (∀ x, x < w.next_entity → alookup w.records x = none →
          alookup (spawnPhase reg assets w1 sp2 rest).world.records x = none) := by
      intro sp2
      have hrest := ih w1 sp2
      exact ⟨le_trans hstep.1 hrest.1,
        fun x hx1 hx2 => hrest.2 x (lt_of_lt_of_le hx1 hstep.1) (hstep.2 x hx1 hx2)⟩
    cases err with
    | none =>
      simp only [spawnPhase, hi]
      exact hcomp _
    | some e =>
      cases e with
      | nonExistentPrefab h2 =>
        simp only [spawnPhase, hi]
        exact hcomp sp
      | unregisteredComponent n =>
        simp only [spawnPhase, hi]
        exact hcomp sp
      | unregisteredType n =>
        simp only [spawnPhase, hi]
        exact hcomp sp
      | patchContainsWrongPath p2 e2 =>
        simp only [spawnPhase, hi]
        exact hcomp sp

theorem spawnedUpdateIds_world (reg : Registry) (assets : Assets) (handle : Nat)
    (ws : World × Spawned) (ids : List Nat) :
    ws.1.next_entity ≤ (spawnedUpdateIds reg assets handle ws ids).1.next_entity ∧
    (∀ x, x < ws.1.next_entity → alookup ws.1.records x = none →
      alookup (spawnedUpdateIds reg assets handle ws ids).1.records x = none) := by
  induction ids generalizing ws with
  | nil => exact ⟨le_refl _, fun x _ hx => hx⟩
  | cons id0 rest ih =>
    obtain ⟨w, sp⟩ := ws
    cases hl : alookup sp.instances id0 with
    | none =>
      have hrest := ih (w, sp)
      simpa [spawnedUpdateIds, hl] using hrest
    | some info =>
      rcases hi : infoSpawn reg assets w info handle with ⟨⟨w1, info1⟩, err⟩
      have hstep := infoSpawn_world_evolution reg assets w info handle
      rw [hi] at hstep
      have hrest := ih (w1, ⟨sp.prefabs, insertKey sp.instances id0 info1⟩)
      constructor
      · simp only [spawnedUpdateIds, hl, hi]
        exact le_trans hstep.1 hrest.1
      · intro x hx1 hx2
        simp only [spawnedUpdateIds, hl, hi]
        exact hrest.2 x (lt_of_lt_of_le hx1 hstep.1) (hstep.2 x hx1 hx2)

theorem spawnedUpdate_world (reg : Registry) (assets : Assets) (w : World) (sp : Spawned)
    (handle : Nat) :
    w.next_entity ≤ (spawnedUpdate reg assets w sp handle).1.next_entity ∧
    (∀ x, x < w.next_entity → alookup w.records x = none →
      alookup (spawnedUpdate reg assets w sp handle).1.records x = none) := by
  cases hb : alookup sp.prefabs handle with
  | none => simp [spawnedUpdate, hb]
  | some ids =>
    have := spawnedUpdateIds_world reg assets handle (w, sp) ids
    simpa [spawnedUpdate, hb] using this

theorem updatePhase_world (reg : Registry) (assets : Assets) (ws : World × Spawned)
    (hs : List Nat) :
    ws.1.next_entity ≤ (updatePhase reg assets ws hs).1.next_entity ∧
    (∀ x, x < ws.1.next_entity → alookup ws.1.records x = none →
      alookup (updatePhase reg assets ws hs).1.records x = none) := by
  induction hs generalizing ws with
  | nil => exact ⟨le_refl _, fun x _ hx => hx⟩
  | cons h0 rest ih =>
    obtain ⟨w, sp⟩ := ws
    have hstep := spawnedUpdate_world reg assets w sp h0
    have hrest := ih (spawnedUpdate reg assets w sp h0)
    exact ⟨le_trans hstep.1 hrest.1,
      fun x hx1 hx2 => hrest.2 x (lt_of_lt_of_le hx1 hstep.1) (hstep.2 x hx1 hx2)⟩

theorem attachLoop_world (parent : Nat) (w : World) (l : List (Nat × Nat)) :
    (attachLoop parent w l).next_entity = w.next_entity ∧
    (∀ x, alookup w.records x = none → alookup (attachLoop parent w l).records x = none) := by
  induction l generalizing w with
  | nil => exact ⟨rfl, fun x hx => hx⟩
  | cons kv rest ih =>
    obtain ⟨k, child⟩ := kv
    have hstep : ∀ w2 : World, w2 = w ∨ w2 = addChild w parent child →
        (attachLoop parent w2 rest).next_entity = w.next_entity ∧
        (∀ x, alookup w.records x = none →
          alookup (attachLoop parent w2 rest).records x = none) := by
      intro w2 hw2
      rcases hw2 with hw2 | hw2
      · subst hw2
        exact ih w2
      · subst hw2
        have hrest := ih (addChild w parent child)
        refine ⟨hrest.1.trans rfl, ?_⟩
        intro x hx
        apply hrest.2
        show alookup (setRecord w.records child _) x = none
        rw [alookup_setRecord]
        by_cases hc : x = child
        · subst hc
          simp [hx]
        · simp [hc, hx]
    show (attachLoop parent _ rest).next_entity = w.next_entity ∧ _
    by_cases hcond : (match alookup w.records child with
      | some r => r.parent.isSome
      | none => true) = true
    · simpa [attachLoop, hcond] using hstep w (Or.inl rfl)
    · simpa [attachLoop, hcond] using hstep (addChild w parent child) (Or.inr rfl)

theorem parentPhase_world (sp : Spawned) (w : World) (l : List (Nat × Nat)) :
    (parentPhase sp w l).1.next_entity = w.next_entity ∧
    (∀ x, alookup w.records x = none → alookup (parentPhase sp w l).1.records x = none) := by
  induction l generalizing w with
  | nil => exact ⟨rfl, fun x hx => hx⟩
  | cons q rest ih =>
    obtain ⟨id, parent⟩ := q
    cases hl : alookup sp.instances id with
    | some info =>
      have hstep := attachLoop_world parent w info.entity_map
      have hrest := ih (attachLoop parent w info.entity_map)
      constructor
      · simp only [parentPhase, hl]
        exact hrest.1.trans hstep.1
      · intro x hx
        simp only [parentPhase, hl]
        exact hrest.2 x (hstep.2 x hx)
    | none =>
      have hrest := ih w
      constructor
      · simp only [parentPhase, hl]
        exact hrest.1
      · intro x hx
        simp only [parentPhase, hl]
        exact hrest.2 x hx

theorem spawnPhase_instances_none {reg : Registry} {assets : Assets} {w : World}
    {sp : Spawned} {l : List (Nat × Nat)} {id : Nat}
    (h : alookup sp.instances id = none) (hl : ∀ q ∈ l, q.2 ≠ id) :
    alookup (spawnPhase reg assets w sp l).spawned.instances id = none := by
  induction l generalizing w sp with
  | nil => simpa [spawnPhase] using h
  | cons q rest ih =>
    obtain ⟨h0, id0⟩ := q
    have hid0 : id0 ≠ id := hl (h0, id0) (by simp)
    have hrest : ∀ q2 ∈ rest, q2.2 ≠ id := fun q2 h2 => hl q2 (List.mem_cons_of_mem _ h2)
    rcases hi : infoSpawn reg assets w ⟨[]⟩ h0 with ⟨⟨w1, info⟩, err⟩
    cases err with
    | none =>
      simp only [spawnPhase, hi]
      apply ih _ hrest
      rw [alookup_insertKey]
      simp [hid0, h]
    | some e =>
      cases e with
      | nonExistentPrefab h2 =>
        simp only [spawnPhase, hi]
        exact ih h hrest
      | unregisteredComponent n =>
        simp only [spawnPhase, hi]
        exact ih h hrest
      | unregisteredType n =>
        simp only [spawnPhase, hi]
        exact ih h hrest
      | patchContainsWrongPath p2 e2 =>
        simp only [spawnPhase, hi]
        exact ih h hrest

theorem spawnedUpdateIds_instances_none {reg : Registry} {assets : Assets} {handle : Nat}
    {ws : World × Spawned} {ids : List Nat} {id : Nat}
    (h : alookup ws.2.instances id = none) :
    alookup (spawnedUpdateIds reg assets handle ws ids).2.instances id = none := by
  induction ids generalizing ws with
  | nil => simpa [spawnedUpdateIds] using h
  | cons id0 rest ih =>
    obtain ⟨w, sp⟩ := ws
    cases hl : alookup sp.instances id0 with
    | none =>
      simp only [spawnedUpdateIds, hl]
      exact ih h
    | some info =>
      have hid0 : ¬ id0 = id := by
        intro heq
        rw [heq] at hl
        rw [hl] at h
        cases h
      rcases hi : infoSpawn reg assets w info handle with ⟨⟨w1, info1⟩, err⟩
      simp only [spawnedUpdateIds, hl, hi]
      apply ih
      show alookup (insertKey sp.instances id0 _) id = none
      rw [alookup_insertKey]
      simp [hid0, h]

theorem spawnedUpdate_instances_none {reg : Registry} {assets : Assets} {w : World}
    {sp : Spawned} {handle : Nat} {id : Nat}
    (h : alookup sp.instances id = none) :
    alookup (spawnedUpdate reg assets w sp handle).2.instances id = none := by
  cases hb : alookup sp.prefabs handle with
  | none => simpa [spawnedUpdate, hb] using h
  | some ids =>
    have := @spawnedUpdateIds_instances_none reg assets handle (w, sp) ids id h
    simpa [spawnedUpdate, hb] using this

theorem updatePhase_instances_none {reg : Registry} {assets : Assets}
    {ws : World × Spawned} {hs : List Nat} {id : Nat}
    (h : alookup ws.2.instances id = none) :
    alookup (updatePhase reg assets ws hs).2.instances id = none := by
  induction hs generalizing ws with
  | nil => simpa [updatePhase] using h
  | cons h0 rest ih =>
    obtain ⟨w, sp⟩ := ws
    show alookup (updatePhase reg assets (spawnedUpdate reg assets w sp h0) rest).2.instances
      id = none
    exact ih (spawnedUpdate_instances_none h)

/-- C9: within one maintenance tick, despawns are processed before spawns,
updates, and parent attachments, so an update is never applied to a
despawned instance and its records are not recreated.  Conjunct 1
(same tick): an instance queued for despawn at tick start is gone from
`instances` after the tick and every live record its remap table mapped is
absent from the world afterwards — the update phase skips it.  Conjunct 2
(earlier tick): an id no longer in `instances` whose records are already
gone stays out of `instances`, and those records stay absent, across a
whole further tick. -/
theorem claim_C9_despawn_precedes_updates :
    (∀ (reg : Registry) (assets : Assets) (events : List AssetEvent) (w : World)
      (s : PrefabSpawner) (id : Nat) (info : PrefabInstanceInfo),
      id ∈ s.to_despawn →
      alookup s.spawned.instances id = some info →
      (∀ kv ∈ info.entity_map, kv.2 < w.next_entity) →
      (∀ q ∈ s.to_spawn, q.2 ≠ id) →
      alookup (maintain reg assets events w s).2.1.spawned.instances id = none ∧
      ∀ kv ∈ info.entity_map,
        alookup (maintain reg assets events w s).1.records kv.2 = none) ∧
    (∀ (reg : Registry) (assets : Assets) (events : List AssetEvent) (w : World)
      (s : PrefabSpawner) (id e : Nat),
      alookup s.spawned.instances id = none →
      e < w.next_entity →
      alookup w.records e = none →
      (∀ q ∈ s.to_spawn, q.2 ≠ id) →
      alookup (maintain reg assets events w s).2.1.spawned.instances id = none ∧
      alookup (maintain reg assets events w s).1.records e = none) := by
  constructor
  · intro reg assets events w s id info hmem hinst hval hspawn
    simp only [maintain]
    have h1world := despawnPhase_world (w, s.spawned) s.to_despawn
    have h1dest := @despawnPhase_destroys (w, s.spawned) s.to_despawn id info hmem hinst
    have h1inst := @despawnPhase_removes (w, s.spawned) s.to_despawn id hmem
    have h2world := spawnPhase_world reg assets
      (despawnPhase (w, s.spawned) s.to_despawn).1
      (despawnPhase (w, s.spawned) s.to_despawn).2 s.to_spawn
    have h2inst := @spawnPhase_instances_none reg assets
      (despawnPhase (w, s.spawned) s.to_despawn).1
      (despawnPhase (w, s.spawned) s.to_despawn).2 s.to_spawn id h1inst hspawn
    have h3world := updatePhase_world reg assets
      ((spawnPhase reg assets (despawnPhase (w, s.spawned) s.to_despawn).1
        (despawnPhase (w, s.spawned) s.to_despawn).2 s.to_spawn).world,
       (spawnPhase reg assets (despawnPhase (w, s.spawned) s.to_despawn).1
        (despawnPhase (w, s.spawned) s.to_despawn).2 s.to_spawn).spawned)
      (drainEvents s.spawned s.updates events)
    have h3inst := @updatePhase_instances_none reg assets
      ((spawnPhase reg assets (despawnPhase (w, s.spawned) s.to_despawn).1
        (despawnPhase (w, s.spawned) s.to_despawn).2 s.to_spawn).world,
       (spawnPhase reg assets (despawnPhase (w, s.spawned) s.to_despawn).1
        (despawnPhase (w, s.spawned) s.to_despawn).2 s.to_spawn).spawned)
      (drainEvents s.spawned s.updates events) id h2inst
    constructor
    · exact h3inst
    · intro kv hkv
      have hklt : kv.2 < (despawnPhase (w, s.spawned) s.to_despawn).1.next_entity := by
        rw [h1world.1]
        exact hval kv hkv
      have habs2 := h2world.2 kv.2 hklt (h1dest kv hkv)
      have hklt3 : kv.2 <
          (spawnPhase reg assets (despawnPhase (w, s.spawned) s.to_despawn).1
            (despawnPhase (w, s.spawned) s.to_despawn).2 s.to_spawn).world.next_entity :=
        lt_of_lt_of_le hklt h2world.1
      have habs3 := h3world.2 kv.2 hklt3 habs2
      exact (parentPhase_world _ _ s.with_parent).2 kv.2 habs3
  · intro reg assets events w s id e hinstnone hlt habs hspawn
    simp only [maintain]
    have h1world := despawnPhase_world (w, s.spawned) s.to_despawn
    have h1inst := @despawnPhase_instances_none (w, s.spawned) s.to_despawn id hinstnone
    have h2world := spawnPhase_world reg assets
      (despawnPhase (w, s.spawned) s.to_despawn).1
      (despawnPhase (w, s.spawned) s.to_despawn).2 s.to_spawn
    have h2inst := @spawnPhase_instances_none reg assets
      (despawnPhase (w, s.spawned) s.to_despawn).1
      (despawnPhase (w, s.spawned) s.to_despawn).2 s.to_spawn id h1inst hspawn
    have h3world := updatePhase_world reg assets
      ((spawnPhase reg assets (despawnPhase (w, s.spawned) s.to_despawn).1
        (despawnPhase (w, s.spawned) s.to_despawn).2 s.to_spawn).world,
       (spawnPhase reg assets (despawnPhase (w, s.spawned) s.to_despawn).1
        (despawnPhase (w, s.spawned) s.to_despawn).2 s.to_spawn).spawned)
      (drainEvents s.spawned s.updates events)
    have h3inst := @updatePhase_instances_none reg assets
      ((spawnPhase reg assets (despawnPhase (w, s.spawned) s.to_despawn).1
        (despawnPhase (w, s.spawned) s.to_despawn).2 s.to_spawn).world,
       (spawnPhase reg assets (despawnPhase (w, s.spawned) s.to_despawn).1
        (despawnPhase (w, s.spawned) s.to_despawn).2 s.to_spawn).spawned)
      (drainEvents s.spawned s.updates events) id h2inst
    constructor
    · exact h3inst
    · have hklt : e < (despawnPhase (w, s.spawned) s.to_despawn).1.next_entity := by
        rw [h1world.1]
        exact hlt
      have habs1 := h1world.2 e habs
      have habs2 := h2world.2 e hklt habs1
      have hklt3 : e <
          (spawnPhase reg assets (despawnPhase (w, s.spawned) s.to_despawn).1
            (despawnPhase (w, s.spawned) s.to_despawn).2 s.to_spawn).world.next_entity :=
        lt_of_lt_of_le hklt h2world.1
      have habs3 := h3world.2 e hklt3 habs2
      exact (parentPhase_world _ _ s.with_parent).2 e habs3

/-- Witness for C9 at a concrete input: instance 3 maps local id 1 to
record 0; it is queued for despawn while a `Modified` event for its prefab
handle 9 is pending; after the tick the instance and its record are gone. -/
theorem claim_C9_witness :
    alookup (maintain regPos [(9, prefabPos)] [.modified 9] ⟨1, [(0, ⟨[], none⟩)]⟩
      ⟨⟨[(9, [3])], [(3, ⟨[(1, 0)]⟩)]⟩, [], [3], [], [], 4⟩).2.1.spawned.instances 3 = none ∧
    alookup (maintain regPos [(9, prefabPos)] [.modified 9] ⟨1, [(0, ⟨[], none⟩)]⟩
      ⟨⟨[(9, [3])], [(3, ⟨[(1, 0)]⟩)]⟩, [], [3], [], [], 4⟩).1.records 0 = none := by
  have h := claim_C9_despawn_precedes_updates.1 regPos [(9, prefabPos)] [.modified 9]
    ⟨1, [(0, ⟨[], none⟩)]⟩ ⟨⟨[(9, [3])], [(3, ⟨[(1, 0)]⟩)]⟩, [], [3], [], [], 4⟩ 3 ⟨[(1, 0)]⟩
    (by decide) (by decide) (by decide) (by decide)
  exact ⟨h.1, h.2 (1, 0) (by decide)⟩

/-! Hot-update lemmas: once every id resolves through the remap table, a
write pass spawns nothing. -/

theorem processEntities_resolved {reg : Registry} {ig : List Nat}
    {stpm : WriteSt × List PatchEntity} {es : List PrefabEntity}
    (h : ∀ pe ∈ es, ig.contains pe.entity = true ∨
      (alookup stpm.1.entity_map pe.entity).isSome) :
    (processEntities reg ig stpm es).1.1.world.records.length =
      stpm.1.world.records.length ∧
    (processEntities reg ig stpm es).1.1.entity_map = stpm.1.entity_map := by
  induction es generalizing stpm with
  | nil => simp [processEntities]
  | cons pe rest ih =>
    obtain ⟨st, pm⟩ := stpm
    by_cases hig : ig.contains pe.entity = true
    · have higm : pe.entity ∈ ig := by simpa using hig
      have hpeq : processEntity reg ig (st, pm) pe = ((st, pm), none) := by
        simp [processEntity, higm]
      simp only [processEntities, hpeq]
      exact ih (fun pe2 h2 => h pe2 (List.mem_cons_of_mem _ h2))
    · have higm : pe.entity ∉ ig := by simpa using hig
      have hpe := h pe (by simp)
      rcases hpe with hpe | hpe
      · exact absurd hpe hig
      · obtain ⟨e, he⟩ := Option.isSome_iff_exists.1 hpe
        have hr : resolveEntity st pe.entity = (e, st) := resolveEntity_hit he
        rcases hd : patchMapRemove pm pe.entity with ⟨patch, pm1⟩
        rcases hc : processComponents reg patch e st (pe.components ++ patchAppend patch)
          with ⟨st2, err⟩
        have hpeq : processEntity reg ig (st, pm) pe = ((st2, pm1), err) := by
          simp [processEntity, higm, hr, hd, hc]
        have hcs := processComponents_state reg patch e st (pe.components ++ patchAppend patch)
        rw [hc] at hcs
        have hlen : st2.world.records.length = st.world.records.length := by
          have h3 := congrArg List.length hcs.2.2.1
          simpa using h3
        cases err with
        | some e2 =>
          simp only [processEntities, hpeq]
          exact ⟨hlen, hcs.1⟩
        | none =>
          simp only [processEntities, hpeq]
          have hrec := @ih (st2, pm1) (by
            intro pe2 h2
            rcases h pe2 (List.mem_cons_of_mem _ h2) with h3 | h3
            · exact Or.inl h3
            · refine Or.inr ?_
              show (alookup st2.entity_map pe2.entity).isSome
              rw [hcs.1]
              exact h3)
          exact ⟨hrec.1.trans hlen, hrec.2.trans hcs.1⟩

theorem processLeftovers_resolved {reg : Registry} {st : WriteSt}
    {pm : List PatchEntity}
    (h : ∀ p ∈ pm, (alookup st.entity_map p.entity).isSome) :
    (processLeftovers reg st pm).1.world.records.length = st.world.records.length ∧
    (processLeftovers reg st pm).1.entity_map = st.entity_map := by
  induction pm generalizing st with
  | nil => simp [processLeftovers]
  | cons p rest ih =>
    obtain ⟨e, he⟩ := Option.isSome_iff_exists.1 (h p (by simp))
    have hr : resolveEntity st p.entity = (e, st) := resolveEntity_hit he
    rcases hc : processComponents reg none e st p.append with ⟨st2, err⟩
    have hpeq : processLeftoverEntity reg st p = (st2, err) := by
      simp [processLeftoverEntity, hr, hc]
    have hcs := processComponents_state reg none e st p.append
    rw [hc] at hcs
    have hlen : st2.world.records.length = st.world.records.length := by
      have h3 := congrArg List.length hcs.2.2.1
      simpa using h3
    cases err with
    | some e2 =>
      simp only [processLeftovers, hpeq]
      exact ⟨hlen, hcs.1⟩
    | none =>
      simp only [processLeftovers, hpeq]
      have hrec := @ih st2 (by
        intro p2 h2
        show (alookup st2.entity_map p2.entity).isSome
        rw [hcs.1]
        exact h p2 (List.mem_cons_of_mem _ h2))
      exact ⟨hrec.1.trans hlen, hrec.2.trans hcs.1⟩

theorem writeToWorld_length_of_resolved (reg : Registry) (patch : Patch) (prefab : Prefab)
    (w : World) (em : List (Nat × Nat))
    (h1 : ∀ pe ∈ prefab.entities, patch.ignore.contains pe.entity = true ∨
      (alookup em pe.entity).isSome)
    (h2 : ∀ p ∈ collectPatchMap patch.modify, (alookup em p.entity).isSome) :
    (writeToWorld reg patch prefab w em).world.records.length = w.records.length := by
  rcases hA : processEntities reg patch.ignore (⟨w, em, []⟩, collectPatchMap patch.modify)
      prefab.entities with ⟨⟨st1, pm1⟩, err1⟩
  have hres := @processEntities_resolved reg patch.ignore
    (⟨w, em, []⟩, collectPatchMap patch.modify) prefab.entities h1
  rw [hA] at hres
  have hsub := (processEntities_evolution reg patch.ignore
    (⟨w, em, []⟩, collectPatchMap patch.modify) prefab.entities).2.2.2
  rw [hA] at hsub
  cases err1 with
  | some e1 =>
    simp only [writeToWorld, hA]
    exact hres.1
  | none =>
    have h2a : ∀ p ∈ pm1, (alookup st1.entity_map p.entity).isSome := by
      intro p hp
      rw [hres.2]
      exact h2 p (hsub p hp)
    rcases hB : processLeftovers reg st1 pm1 with ⟨st2, err2⟩
    have hres2 := @processLeftovers_resolved reg st1 pm1 h2a
    rw [hB] at hres2
    cases err2 with
    | some e2 =>
      simp only [writeToWorld, hA, hB]
      exact hres2.1.trans hres.1
    | none =>
      simp only [writeToWorld, hA, hB]
      have hs := applySceneMappings_state reg st2.entity_map st2.world st2.scene_mappings
      have hlen : (applySceneMappings reg st2.entity_map st2.world
          st2.scene_mappings).records.length = st2.world.records.length := by
        have h3 := congrArg List.length hs.2.1
        simpa using h3
      exact hlen.trans (hres2.1.trans hres.1)

theorem processEntity_cases (reg : Registry) (ig : List Nat)
    (stpm : WriteSt × List PatchEntity) (pe : PrefabEntity) :
    (ig.contains pe.entity = true ∧ processEntity reg ig stpm pe = (stpm, none)) ∨
    (ig.contains pe.entity = false ∧
      (processEntity reg ig stpm pe).1.2 = (patchMapRemove stpm.2 pe.entity).2 ∧
      (alookup (processEntity reg ig stpm pe).1.1.entity_map pe.entity).isSome) := by
  obtain ⟨st, pm⟩ := stpm
  by_cases hig : ig.contains pe.entity = true
  · have higm : pe.entity ∈ ig := by simpa using hig
    exact Or.inl ⟨hig, by simp [processEntity, higm]⟩
  · have higm : pe.entity ∉ ig := by simpa using hig
    refine Or.inr ⟨by simpa using higm, ?_⟩
    rcases hr : resolveEntity st pe.entity with ⟨e, st1⟩
    rcases hd : patchMapRemove pm pe.entity with ⟨patch, pm1⟩
    rcases hc : processComponents reg patch e st1 (pe.components ++ patchAppend patch)
      with ⟨st2, err⟩
    have hpeq : processEntity reg ig (st, pm) pe = ((st2, pm1), err) := by
      simp [processEntity, higm, hr, hd, hc]
    have hcs := processComponents_state reg patch e st1 (pe.components ++ patchAppend patch)
    rw [hc] at hcs
    have hcov : (alookup st1.entity_map pe.entity).isSome := by
      cases hl : alookup st.entity_map pe.entity with
      | some e0 =>
        rw [resolveEntity_hit hl] at hr
        cases hr
        simp [hl]
      | none =>
        rw [resolveEntity_miss hl] at hr
        cases hr
        show (alookup (st.entity_map ++ [(pe.entity, st.world.next_entity)]) pe.entity).isSome
        rw [alookup_append_none _ hl]
        simp [alookup]
    constructor
    · rw [hpeq]
    · rw [hpeq]
      show (alookup st2.entity_map pe.entity).isSome
      rw [hcs.1]
      exact hcov

theorem processEntities_covers {reg : Registry} {ig : List Nat}
    {stpm : WriteSt × List PatchEntity} {es : List PrefabEntity}
    (herr : (processEntities reg ig stpm es).2 = none) :
    ∀ pe ∈ es, ig.contains pe.entity = true ∨
      (alookup (processEntities reg ig stpm es).1.1.entity_map pe.entity).isSome := by
  induction es generalizing stpm with
  | nil =>
    intro pe hpe
    simp at hpe
  | cons pe0 rest ih =>
    intro pe hpe
    rcases hp : processEntity reg ig stpm pe0 with ⟨stpm1, err⟩
    cases err with
    | some e2 =>
      rw [processEntities, hp] at herr
      simp at herr
    | none =>
      have herr2 : (processEntities reg ig stpm1 rest).2 = none := by
        rw [processEntities, hp] at herr
        exact herr
      have heq : processEntities reg ig stpm (pe0 :: rest) =
          processEntities reg ig stpm1 rest := by
        rw [processEntities, hp]
      rcases List.mem_cons.1 hpe with h1 | h1
      · subst h1
        rcases processEntity_cases reg ig stpm pe with hcase | hcase
        · exact Or.inl hcase.1
        · refine Or.inr ?_
          have hsome := hcase.2.2
          rw [hp] at hsome
          obtain ⟨e0, he0⟩ := Option.isSome_iff_exists.1 hsome
          have hev := (processEntities_evolution reg ig stpm1 rest).1
          obtain ⟨ext, hext⟩ := hev
          rw [heq, hext]
          rw [alookup_append_some ext he0]
          rfl
      · have := @ih stpm1 herr2 pe h1
        rw [heq]
        exact this

theorem processEntities_pm_covers {reg : Registry} {ig : List Nat}
    {stpm : WriteSt × List PatchEntity} {es : List PrefabEntity}
    (herr : (processEntities reg ig stpm es).2 = none) :
    ∀ q ∈ stpm.2, q ∈ (processEntities reg ig stpm es).1.2 ∨
      (alookup (processEntities reg ig stpm es).1.1.entity_map q.entity).isSome := by
  induction es generalizing stpm with
  | nil =>
    intro q hq
    simpa [processEntities] using Or.inl hq
  | cons pe0 rest ih =>
    intro q hq
    rcases hp : processEntity reg ig stpm pe0 with ⟨stpm1, err⟩
    cases err with
    | some e2 =>
      rw [processEntities, hp] at herr
      simp at herr
    | none =>
      have herr2 : (processEntities reg ig stpm1 rest).2 = none := by
        rw [processEntities, hp] at herr
        exact herr
      have heq : processEntities reg ig stpm (pe0 :: rest) =
          processEntities reg ig stpm1 rest := by
        rw [processEntities, hp]
      rcases processEntity_cases reg ig stpm pe0 with hcase | hcase
      · have hsame : stpm1 = stpm := by
          rw [hp] at hcase
          exact congrArg Prod.fst hcase.2
        rw [heq]
        rw [← hsame] at hq
        exact ih herr2 q hq
      · have hpm1 : stpm1.2 = (patchMapRemove stpm.2 pe0.entity).2 := by
          have := hcase.2.1
          rw [hp] at this
          exact this
        rcases patchMapRemove_mem_or (k := pe0.entity) hq with h1 | h1
        · rw [← hpm1] at h1
          rw [heq]
          exact ih herr2 q h1
        · refine Or.inr ?_
          have hsome := hcase.2.2
          rw [hp] at hsome
          have : q.entity = pe0.entity := h1
          rw [this]
          obtain ⟨e0, he0⟩ := Option.isSome_iff_exists.1 hsome
          obtain ⟨ext, hext⟩ := (processEntities_evolution reg ig stpm1 rest).1
          rw [heq, hext]
          rw [alookup_append_some ext he0]
          rfl

theorem processLeftoverEntity_map_covers (reg : Registry) (st : WriteSt)
    (p : PatchEntity) :
    (alookup (processLeftoverEntity reg st p).1.entity_map p.entity).isSome := by
  rcases hr : resolveEntity st p.entity with ⟨e, st1⟩
  rcases hc : processComponents reg none e st1 p.append with ⟨st2, err⟩
  have hpeq : processLeftoverEntity reg st p = (st2, err) := by
    simp [processLeftoverEntity, hr, hc]
  have hcs := processComponents_state reg none e st1 p.append
  rw [hc] at hcs
  have hcov : (alookup st1.entity_map p.entity).isSome := by
    cases hl : alookup st.entity_map p.entity with
    | some e0 =>
      rw [resolveEntity_hit hl] at hr
      cases hr
      simp [hl]
    | none =>
      rw [resolveEntity_miss hl] at hr
      cases hr
      show (alookup (st.entity_map ++ [(p.entity, st.world.next_entity)]) p.entity).isSome
      rw [alookup_append_none _ hl]
      simp [alookup]
  rw [hpeq]
  show (alookup st2.entity_map p.entity).isSome
  rw [hcs.1]
  exact hcov

theorem processLeftovers_covers {reg : Registry} {st : WriteSt} {pm : List PatchEntity}
    (herr : (processLeftovers reg st pm).2 = none) :
    ∀ q ∈ pm, (alookup (processLeftovers reg st pm).1.entity_map q.entity).isSome := by
  induction pm generalizing st with
  | nil =>
    intro q hq
    simp at hq
  | cons p rest ih =>
    intro q hq
    rcases hp : processLeftoverEntity reg st p with ⟨st1, err⟩
    cases err with
    | some e2 =>
      rw [processLeftovers, hp] at herr
      simp at herr
    | none =>
      have herr2 : (processLeftovers reg st1 rest).2 = none := by
        rw [processLeftovers, hp] at herr
        exact herr
      have heq : processLeftovers reg st (p :: rest) = processLeftovers reg st1 rest := by
        rw [processLeftovers, hp]
      rcases List.mem_cons.1 hq with h1 | h1
      · subst h1
        have hsome := processLeftoverEntity_map_covers reg st q
        rw [hp] at hsome
        obtain ⟨e0, he0⟩ := Option.isSome_iff_exists.1 hsome
        obtain ⟨ext, hext⟩ := (processLeftovers_evolution reg st1 rest).1
        rw [heq, hext]
        rw [alookup_append_some ext he0]
        rfl
      · rw [heq]
        exact ih herr2 q h1

/-- C3: after a successful `write()`, every non-ignored snapshot `local_id`
and every patch-entity id is covered by the remap table, so running
`write()` again with the same remap table resolves every id through the
existing entries and spawns nothing: the number of live records after the
second call equals the number after the first call. -/
theorem claim_C3_hot_update_no_duplicates (reg : Registry) (patch : Patch)
    (prefab : Prefab) (w : World) (em : List (Nat × Nat))
    (hok : (writeToWorld reg patch prefab w em).error = none) :
    (writeToWorld reg patch prefab
        (writeToWorld reg patch prefab w em).world
        (writeToWorld reg patch prefab w em).entity_map).world.records.length =
      (writeToWorld reg patch prefab w em).world.records.length := by
  rcases hA : processEntities reg patch.ignore (⟨w, em, []⟩, collectPatchMap patch.modify)
      prefab.entities with ⟨⟨st1, pm1⟩, err1⟩
  cases err1 with
  | some e1 =>
    rw [show (writeToWorld reg patch prefab w em).error = some e1 by
      simp only [writeToWorld, hA]] at hok
    cases hok
  | none =>
    rcases hB : processLeftovers reg st1 pm1 with ⟨st2, err2⟩
    cases err2 with
    | some e2 =>
      rw [show (writeToWorld reg patch prefab w em).error = some e2 by
        simp only [writeToWorld, hA, hB]] at hok
      cases hok
    | none =>
      have hr1w : (writeToWorld reg patch prefab w em).world =
          applySceneMappings reg st2.entity_map st2.world st2.scene_mappings := by
        simp only [writeToWorld, hA, hB]
      have hr1m : (writeToWorld reg patch prefab w em).entity_map = st2.entity_map := by
        simp only [writeToWorld, hA, hB]
      have hcov1 := @processEntities_covers reg patch.ignore
        (⟨w, em, []⟩, collectPatchMap patch.modify) prefab.entities
        (by rw [hA])
      rw [hA] at hcov1
      have hpmcov := @processEntities_pm_covers reg patch.ignore
        (⟨w, em, []⟩, collectPatchMap patch.modify) prefab.entities
        (by rw [hA])
      rw [hA] at hpmcov
      have hleftcov := @processLeftovers_covers reg st1 pm1
        (by rw [hB])
      rw [hB] at hleftcov
      obtain ⟨ext2, hext2⟩ := (processLeftovers_evolution reg st1 pm1).1
      rw [hB] at hext2
      have h1 : ∀ pe ∈ prefab.entities, patch.ignore.contains pe.entity = true ∨
          (alookup st2.entity_map pe.entity).isSome := by
        intro pe hpe
        rcases hcov1 pe hpe with h3 | h3
        · exact Or.inl h3
        · refine Or.inr ?_
          have h4 : (alookup st1.entity_map pe.entity).isSome := h3
          rw [show st2.entity_map = st1.entity_map ++ ext2 from hext2]
          exact alookup_isSome_append ext2 h4
      have h2 : ∀ p ∈ collectPatchMap patch.modify,
          (alookup st2.entity_map p.entity).isSome := by
        intro p hp
        rcases hpmcov p hp with h3 | h3
        · exact hleftcov p h3
        · have h4 : (alookup st1.entity_map p.entity).isSome := h3
          rw [show st2.entity_map = st1.entity_map ++ ext2 from hext2]
          exact alookup_isSome_append ext2 h4
      have hfin := writeToWorld_length_of_resolved reg patch prefab
        (applySceneMappings reg st2.entity_map st2.world st2.scene_mappings)
        st2.entity_map h1 h2
      rw [hr1w, hr1m]
      exact hfin

/-- Witness for C3 at a concrete input: re-running the modify-scenario write
on its own remap table leaves the record count at one. -/
theorem claim_C3_witness :
    (writeToWorld regPos patchModifyX5 prefabPos
        (writeToWorld regPos patchModifyX5 prefabPos ⟨0, []⟩ []).world
        (writeToWorld regPos patchModifyX5 prefabPos ⟨0, []⟩ []).entity_map).world.records.length =
      (writeToWorld regPos patchModifyX5 prefabPos ⟨0, []⟩ []).world.records.length :=
  claim_C3_hot_update_no_duplicates regPos patchModifyX5 prefabPos ⟨0, []⟩ [] (by decide)

/-! Precedence of `remove` over `modify` (claim C4). -/

theorem alookup_of_keys_lt {rs : List (Nat × Record)} {m : Nat}
    (h : ∀ kv ∈ rs, kv.1 < m) : alookup rs m = none := by
  induction rs with
  | nil => rfl
  | cons kv rest ih =>
    have h1 := h kv (by simp)
    have hne : ¬ kv.1 = m := fun he => absurd (he ▸ h1) (lt_irrefl _)
    obtain ⟨k, v⟩ := kv
    simp only [alookup]
    rw [if_neg hne]
    exact ih (fun kv2 h2 => h kv2 (List.mem_cons_of_mem _ h2))

theorem records_lt_of_keys_eq {rs1 rs2 : List (Nat × Record)} {m : Nat}
    (hk : rs2.map Prod.fst = rs1.map Prod.fst) (h : ∀ kv ∈ rs1, kv.1 < m) :
    ∀ kv ∈ rs2, kv.1 < m := by
  intro kv hkv
  have h1 : kv.1 ∈ rs2.map Prod.fst := List.mem_map_of_mem _ hkv
  rw [hk] at h1
  obtain ⟨kv0, hkv0, hfst⟩ := List.mem_map.1 h1
  exact hfst ▸ h kv0 hkv0

theorem patchMapInsert_keys_nodup {pm : List PatchEntity} {q : PatchEntity}
    (h : pmKeysNodup pm) : pmKeysNodup (patchMapInsert pm q) := by
  induction pm with
  | nil => simp [patchMapInsert, pmKeysNodup]
  | cons p0 rest ih =>
    rw [pmKeysNodup, List.map_cons, List.nodup_cons] at h
    by_cases h0 : p0.entity = q.entity
    · rw [pmKeysNodup]
      simp only [patchMapInsert, h0, if_pos]
      rw [List.map_cons, List.nodup_cons]
      exact ⟨h0 ▸ h.1, h.2⟩
    · rw [pmKeysNodup]
      simp only [patchMapInsert, h0, if_neg, not_false_iff]
      rw [List.map_cons, List.nodup_cons]
      constructor
      · intro hmem
        obtain ⟨q2, hq2, hq2e⟩ := List.mem_map.1 hmem
        rcases patchMapInsert_mem hq2 with h3 | h3
        · exact h0 (by rw [h3] at hq2e; exact hq2e.symm)
        · exact h.1 (hq2e ▸ List.mem_map_of_mem _ h3)
      · exact ih h.2

theorem collectPatchMap_keys_nodup (l : List PatchEntity) :
    pmKeysNodup (collectPatchMap l) := by
  suffices h : ∀ acc, pmKeysNodup acc → pmKeysNodup (l.foldl patchMapInsert acc) by
    exact h [] (by simp [pmKeysNodup])
  induction l with
  | nil =>
    intro acc ha
    exact ha
  | cons q rest ih =>
    intro acc ha
    exact ih (patchMapInsert acc q) (patchMapInsert_keys_nodup ha)

theorem patchMapRemove_keys_nodup {pm : List PatchEntity} {k : Nat}
    (h : pmKeysNodup pm) : pmKeysNodup (patchMapRemove pm k).2 := by
  induction pm with
  | nil => simpa [patchMapRemove] using h
  | cons p0 rest ih =>
    rw [pmKeysNodup, List.map_cons, List.nodup_cons] at h
    by_cases h0 : p0.entity = k
    · simp only [patchMapRemove, h0, if_pos]
      exact h.2
    · simp only [patchMapRemove, h0, if_neg, not_false_iff]
      rw [pmKeysNodup, List.map_cons, List.nodup_cons]
      constructor
      · intro hmem
        obtain ⟨q2, hq2, hq2e⟩ := List.mem_map.1 hmem
        exact h.1 (hq2e ▸ List.mem_map_of_mem _ (patchMapRemove_snd_mem hq2))
      · exact ih h.2

theorem patchMapRemove_rest_no_key {pm : List PatchEntity} {k : Nat} {q0 : PatchEntity}
    (hnd : pmKeysNodup pm) (hf : (patchMapRemove pm k).1 = some q0) :
    ∀ q ∈ (patchMapRemove pm k).2, q.entity ≠ k := by
  induction pm with
  | nil => simp [patchMapRemove] at hf
  | cons p0 rest ih =>
    rw [pmKeysNodup, List.map_cons, List.nodup_cons] at hnd
    by_cases h0 : p0.entity = k
    · intro q hq
      simp only [patchMapRemove, h0, if_pos] at hq
      intro he
      exact hnd.1 (h0 ▸ he ▸ List.mem_map_of_mem _ hq)
    · intro q hq
      simp only [patchMapRemove, h0, if_neg, not_false_iff] at hq hf
      rcases List.mem_cons.1 hq with h1 | h1
      · exact h1 ▸ h0
      · exact ih hnd.2 hf q h1

/-- One insertion step never puts a component named `n` onto record `e` when
the inserted value has another name. -/
theorem insertStep_no_n {reg : Registry} {e : Nat} {st : WriteSt} {c : Value} {n : String}
    (hc : c.type_name ≠ n)
    (h : ∀ rec, alookup st.world.records e = some rec →
      ∀ c2 ∈ rec.components, c2.type_name ≠ n) :
    ∀ rec, alookup (insertStep reg e st c).1.world.records e = some rec →
      ∀ c2 ∈ rec.components, c2.type_name ≠ n := by
  have hset : ∀ rec, alookup (setRecord st.world.records e
      (fun r => ⟨upsertComponent r.components c, r.parent⟩)) e = some rec →
      ∀ c2 ∈ rec.components, c2.type_name ≠ n := by
    intro rec hrec
    rw [alookup_setRecord] at hrec
    rw [if_pos rfl] at hrec
    cases hold : alookup st.world.records e with
    | none =>
      rw [hold] at hrec
      cases hrec
    | some rec0 =>
      rw [hold] at hrec
      have : rec = ⟨upsertComponent rec0.components c, rec0.parent⟩ := by
        simpa using hrec.symm
      rw [this]
      exact upsertComponent_no_name (h rec0 hold) hc
  cases hr : alookup reg c.type_name with
  | none => simpa [insertStep, hr] using h
  | some r =>
    by_cases h1 : r.prefab_component = true
    · intro rec hrec
      apply hset rec
      simpa [insertStep, hr, h1, World.applyInsertProxy] using hrec
    · by_cases h2 : r.component = true
      · intro rec hrec
        apply hset rec
        simpa [insertStep, hr, h1, h2, World.applyOrInsert] using hrec
      · simpa [insertStep, hr, h1, h2] using h

/-- A component loop running under a patch whose `remove` set contains `n`
never puts a component named `n` onto its target record. -/
theorem processComponent_no_n {reg : Registry} {p : PatchEntity} {e : Nat}
    {st : WriteSt} {c : Value} {n : String}
    (hn : p.remove.contains n = true)
    (h : ∀ rec, alookup st.world.records e = some rec →
      ∀ c2 ∈ rec.components, c2.type_name ≠ n) :
    ∀ rec, alookup (processComponent reg (some p) e st c).1.world.records e = some rec →
      ∀ c2 ∈ rec.components, c2.type_name ≠ n := by
  by_cases hc : c.type_name = n
  · have hmem : c.type_name ∈ p.remove := by
      rw [hc]
      simpa using hn
    simpa [processComponent, hmem] using h
  · by_cases hrem : p.remove.contains c.type_name = true
    · have hmem : c.type_name ∈ p.remove := by simpa using hrem
      simpa [processComponent, hmem] using h
    · have hmem : c.type_name ∉ p.remove := by simpa using hrem
      cases hm : alookup p.modify c.type_name with
      | none =>
        have := @insertStep_no_n reg e st c n hc h
        intro rec hrec
        apply this rec
        simpa [processComponent, hmem, hm] using hrec
      | some m =>
        cases hap : applyPatchPaths m c with
        | error err => simpa [processComponent, hmem, hm, hap] using h
        | ok c2 =>
          have hc2 : c2.type_name ≠ n := by
            rw [applyPatchPaths_ok_type_name hap]
            exact hc
          have := @insertStep_no_n reg e st c2 n hc2 h
          intro rec hrec
          apply this rec
          simpa [processComponent, hmem, hm, hap] using hrec

theorem processComponents_no_n {reg : Registry} {p : PatchEntity} {e : Nat}
    {st : WriteSt} {cs : List Value} {n : String}
    (hn : p.remove.contains n = true)
    (h : ∀ rec, alookup st.world.records e = some rec →
      ∀ c2 ∈ rec.components, c2.type_name ≠ n) :
    ∀ rec, alookup (processComponents reg (some p) e st cs).1.world.records e = some rec →
      ∀ c2 ∈ rec.components, c2.type_name ≠ n := by
  induction cs generalizing st with
  | nil => simpa [processComponents] using h
  | cons c rest ih =>
    rcases hc : processComponent reg (some p) e st c with ⟨st1, err⟩
    have hstep := @processComponent_no_n reg p e st c n hn h
    rw [hc] at hstep
    cases err with
    | none =>
      intro rec hrec
      apply ih hstep rec
      simpa [processComponents, hc] using hrec
    | some e2 => simpa [processComponents, hc] using hstep

/-- The reference-rewrite pass preserves every record's component name list. -/
theorem applySceneMappings_no_n {reg : Registry} {em : List (Nat × Nat)} {w : World}
    {sm : List (String × List Nat)} {e : Nat} {n : String}
    (h : ∀ rec, alookup w.records e = some rec → ∀ c ∈ rec.components, c.type_name ≠ n) :
    ∀ rec, alookup (applySceneMappings reg em w sm).records e = some rec →
      ∀ c ∈ rec.components, c.type_name ≠ n := by
  have hrewrite : ∀ (n2 : String) (w2 : World) (e2 : Nat),
      (∀ rec, alookup w2.records e = some rec → ∀ c ∈ rec.components, c.type_name ≠ n) →
      ∀ rec, alookup (mapEntitiesRewrite em n2 w2 e2).records e = some rec →
        ∀ c ∈ rec.components, c.type_name ≠ n := by
    intro n2 w2 e2 h2 rec hrec
    show ∀ c ∈ rec.components, c.type_name ≠ n
    have : alookup (setRecord w2.records e2
        (fun r => ⟨r.components.map (fun c => if c.type_name = n2 then rewriteValue em c
          else c), r.parent⟩)) e = some rec := hrec
    rw [alookup_setRecord] at this
    by_cases he : e = e2
    · rw [if_pos he] at this
      cases hold : alookup w2.records e with
      | none =>
        rw [hold] at this
        cases this
      | some rec0 =>
        rw [hold] at this
        have hr : rec = ⟨rec0.components.map (fun c => if c.type_name = n2
            then rewriteValue em c else c), rec0.parent⟩ := by
          simpa using this.symm
        rw [hr]
        intro c hc
        obtain ⟨c0, hc0, hceq⟩ := List.mem_map.1 hc
        have hname : c.type_name = c0.type_name := by
          rw [← hceq]
          by_cases hcn : c0.type_name = n2
          · simp [hcn, rewriteValue]
          · simp [hcn]
        rw [hname]
        exact h2 rec0 hold c0 hc0
    · rw [if_neg he] at this
      exact h2 rec this
  have hfor : ∀ (n2 : String) (es : List Nat) (w2 : World),
      (∀ rec, alookup w2.records e = some rec → ∀ c ∈ rec.components, c.type_name ≠ n) →
      ∀ rec, alookup (applyMapEntitiesFor em n2 w2 es).records e = some rec →
        ∀ c ∈ rec.components, c.type_name ≠ n := by
    intro n2 es
    induction es with
    | nil =>
      intro w2 h2
      exact h2
    | cons e0 rest ih =>
      intro w2 h2
      exact ih (mapEntitiesRewrite em n2 w2 e0) (hrewrite n2 w2 e0 h2)
  induction sm generalizing w with
  | nil => exact h
  | cons b rest ih =>
    obtain ⟨n2, es⟩ := b
    cases hr : alookup reg n2 with
    | none =>
      intro rec hrec
      refine ih h rec ?_
      simpa [applySceneMappings, hr] using hrec
    | some r =>
      by_cases hm : r.map_entities = true
      · intro rec hrec
        refine ih (hfor n2 es w h) rec ?_
        simpa [applySceneMappings, hr, hm] using hrec
      · intro rec hrec
        refine ih h rec ?_
        simpa [applySceneMappings, hr, hm] using hrec

theorem alookup_append_single {κ α : Type} [DecidableEq κ] (l : List (κ × α))
    (k : κ) (v : α) (x : κ) :
    alookup (l ++ [(k, v)]) x =
      match alookup l x with
      | some y => some y
      | none => if k = x then some v else none := by
  cases h : alookup l x with
  | some y => exact alookup_append_some _ h
  | none =>
    rw [alookup_append_none _ h]
    simp [alookup]

theorem resolveEntity_C4 {st : WriteSt} {k : Nat} {n : String} {lid : Nat}
    (hinv : C4Inv n lid st) :
    C4Inv n lid (resolveEntity st k).2 ∧
    alookup (resolveEntity st k).2.entity_map k = some (resolveEntity st k).1 ∧
    (∀ x v, alookup st.entity_map x = some v →
      alookup (resolveEntity st k).2.entity_map x = some v) ∧
    (k ≠ lid → alookup st.entity_map lid = none →
      alookup (resolveEntity st k).2.entity_map lid = none) ∧
    (k = lid → alookup st.entity_map lid = none →
      ∀ rec, alookup (resolveEntity st k).2.world.records (resolveEntity st k).1 = some rec →
        rec.components = []) := by
  obtain ⟨hwf, hbnd, hinj, hprot⟩ := hinv
  cases hl : alookup st.entity_map k with
  | some e =>
    rw [resolveEntity_hit hl]
    refine ⟨⟨hwf, hbnd, hinj, hprot⟩, hl, fun x v hv => hv, fun _ h2 => h2, ?_⟩
    intro hk h2
    rw [hk] at hl
    rw [h2] at hl
    cases hl
  | none =>
    rw [resolveEntity_miss hl]
    refine ⟨⟨?_, ?_, ?_, ?_⟩, ?_, ?_, ?_, ?_⟩
    · intro kv hkv
      have hkv2 : kv ∈ st.world.records ++
          [(st.world.next_entity, (⟨[], none⟩ : Record))] := hkv
      show kv.1 < st.world.next_entity + 1
      rcases List.mem_append.1 hkv2 with h1 | h1
      · exact lt_trans (hwf kv h1) (Nat.lt_succ_self _)
      · have h2 : kv = (st.world.next_entity, (⟨[], none⟩ : Record)) := by simpa using h1
        subst h2
        exact Nat.lt_succ_self _
    · intro kv hkv
      have hkv2 : kv ∈ st.entity_map ++ [(k, st.world.next_entity)] := hkv
      show kv.2 < st.world.next_entity + 1
      rcases List.mem_append.1 hkv2 with h1 | h1
      · exact lt_trans (hbnd kv h1) (Nat.lt_succ_self _)
      · have h2 : kv = (k, st.world.next_entity) := by simpa using h1
        subst h2
        exact Nat.lt_succ_self _
    · intro kv1 h1 kv2 h2 hval
      have h1b : kv1 ∈ st.entity_map ++ [(k, st.world.next_entity)] := h1
      have h2b : kv2 ∈ st.entity_map ++ [(k, st.world.next_entity)] := h2
      rcases List.mem_append.1 h1b with h1a | h1a <;>
        rcases List.mem_append.1 h2b with h2a | h2a
      · exact hinj kv1 h1a kv2 h2a hval
      · have h2c : kv2 = (k, st.world.next_entity) := by simpa using h2a
        have hlt : kv1.2 < st.world.next_entity := hbnd kv1 h1a
        rw [hval, h2c] at hlt
        exact absurd hlt (lt_irrefl _)
      · have h1c : kv1 = (k, st.world.next_entity) := by simpa using h1a
        have hlt : kv2.2 < st.world.next_entity := hbnd kv2 h2a
        rw [← hval, h1c] at hlt
        exact absurd hlt (lt_irrefl _)
      · have h1c : kv1 = (k, st.world.next_entity) := by simpa using h1a
        have h2c : kv2 = (k, st.world.next_entity) := by simpa using h2a
        rw [h1c, h2c]
    · intro e2 he2 rec hrec
      have he2b : alookup (st.entity_map ++ [(k, st.world.next_entity)]) lid = some e2 := he2
      have hrecb : alookup (st.world.records ++
          [(st.world.next_entity, (⟨[], none⟩ : Record))]) e2 = some rec := hrec
      rw [alookup_append_single] at he2b
      rw [alookup_append_single] at hrecb
      cases hml : alookup st.entity_map lid with
      | some e3 =>
        rw [hml] at he2b
        have he23 : e3 = e2 := by
          simpa using he2b
        subst he23
        cases hmr : alookup st.world.records e3 with
        | some rec0 =>
          rw [hmr] at hrecb
          have hr : rec0 = rec := by simpa using hrecb
          subst hr
          exact hprot e3 hml rec0 hmr
        | none =>
          rw [hmr] at hrecb
          have hne : st.world.next_entity ≠ e3 := by
            intro he
            have hm := alookup_mem hml
            have hlt := hbnd (lid, e3) hm
            rw [he] at hlt
            exact absurd hlt (lt_irrefl _)
          rw [if_neg hne] at hrecb
          cases hrecb
      | none =>
        rw [hml] at he2b
        by_cases hk : k = lid
        · rw [if_pos hk] at he2b
          have he2n : st.world.next_entity = e2 := by simpa using he2b
          rw [← he2n] at hrecb
          rw [alookup_of_keys_lt hwf] at hrecb
          rw [if_pos rfl] at hrecb
          have hr : (⟨[], none⟩ : Record) = rec := by simpa using hrecb
          rw [← hr]
          intro c hc
          simp at hc
        · rw [if_neg hk] at he2b
          cases he2b
    · show alookup (st.entity_map ++ [(k, st.world.next_entity)]) k = some st.world.next_entity
      rw [alookup_append_single, hl]
      simp
    · intro x v hv
      show alookup (st.entity_map ++ [(k, st.world.next_entity)]) x = some v
      rw [alookup_append_single, hv]
    · intro hk h2
      show alookup (st.entity_map ++ [(k, st.world.next_entity)]) lid = none
      rw [alookup_append_single, h2]
      rw [if_neg hk]
    · intro hk h2 rec hrec
      have hrecb : alookup (st.world.records ++
          [(st.world.next_entity, (⟨[], none⟩ : Record))]) st.world.next_entity
          = some rec := hrec
      rw [alookup_append_single] at hrecb
      rw [alookup_of_keys_lt hwf] at hrecb
      rw [if_pos rfl] at hrecb
      have hr : (⟨[], none⟩ : Record) = rec := by simpa using hrecb
      rw [← hr]

theorem processEntity_C4_step {reg : Registry} {ig : List Nat}
    {stpm : WriteSt × List PatchEntity} {pe : PrefabEntity} {n : String} {lid : Nat}
    {p : PatchEntity}
    (hrem : p.remove.contains n = true)
    (hC4 : C4State n lid p stpm)
    (hok : pe.entity = lid → alookup stpm.1.entity_map lid = none) :
    C4State n lid p (processEntity reg ig stpm pe).1 := by
  obtain ⟨st, pm⟩ := stpm
  obtain ⟨hinv, hnd, hdisj⟩ := hC4
  by_cases hig : ig.contains pe.entity = true
  · have higm : pe.entity ∈ ig := by simpa using hig
    have hpeq : processEntity reg ig (st, pm) pe = ((st, pm), none) := by
      simp [processEntity, higm]
    rw [hpeq]
    exact ⟨hinv, hnd, hdisj⟩
  · have higm : pe.entity ∉ ig := by simpa using hig
    rcases hr : resolveEntity st pe.entity with ⟨e, st1⟩
    rcases hd : patchMapRemove pm pe.entity with ⟨patch, pm1⟩
    rcases hc : processComponents reg patch e st1 (pe.components ++ patchAppend patch)
      with ⟨st2, err⟩
    have hpeq : processEntity reg ig (st, pm) pe = ((st2, pm1), err) := by
      simp [processEntity, higm, hr, hd, hc]
    rw [hpeq]
    have hres := @resolveEntity_C4 st pe.entity n lid hinv
    rw [hr] at hres
    obtain ⟨hinv1, hke, hmono1, hlidnone1, hbase1⟩ := hres
    have hcs := processComponents_state reg patch e st1 (pe.components ++ patchAppend patch)
    rw [hc] at hcs
    obtain ⟨hmap2, hnext2, hkeys2, hne2, habs2⟩ := hcs
    obtain ⟨hwf1, hbnd1, hinj1, hprot1⟩ := hinv1
    have hinv2 : C4Inv n lid st2 := by
      refine ⟨?_, ?_, ?_, ?_⟩
      · intro kv hkv
        rw [hnext2]
        exact records_lt_of_keys_eq hkeys2 hwf1 kv hkv
      · intro kv hkv
        rw [hnext2]
        exact hbnd1 kv (hmap2 ▸ hkv)
      · intro kv1 h1 kv2 h2 hval
        exact hinj1 kv1 (hmap2 ▸ h1) kv2 (hmap2 ▸ h2) hval
      · intro e2 he2 rec hrec
        rw [hmap2] at he2
        cases hml1 : alookup st1.entity_map lid with
        | none =>
          rw [hml1] at he2
          cases he2
        | some e0 =>
          rw [hml1] at he2
          have he20 : e2 = e0 := by
            cases he2
            rfl
          subst he20
          by_cases hee : e2 = e
          · have hkey : lid = pe.entity :=
              hinj1 (lid, e2) (alookup_mem hml1) (pe.entity, e) (alookup_mem hke) hee
            have hstnone : alookup st.entity_map lid = none := hok hkey.symm
            have hfind : (patchMapRemove pm lid).1 = some p := by
              rcases hdisj with ⟨_, hf⟩ | ⟨hs, _⟩
              · exact hf
              · rw [hstnone] at hs
                cases hs
            have hpatch : patch = some p := by
              rw [hkey] at hfind
              rw [hd] at hfind
              exact hfind
            subst hpatch
            have hbase : ∀ rec2, alookup st1.world.records e = some rec2 →
                ∀ c2 ∈ rec2.components, c2.type_name ≠ n := by
              intro rec2 hrec2 c2 hc2
              have hempty := hbase1 hkey.symm hstnone rec2 hrec2
              rw [hempty] at hc2
              simp at hc2
            have hnon := @processComponents_no_n reg p e st1
              (pe.components ++ patchAppend (some p)) n hrem hbase
            rw [hc] at hnon
            rw [hee] at hrec
            intro c2 hc2
            exact hnon rec hrec c2 hc2
          · have hrec1 : alookup st1.world.records e2 = some rec := by
              rw [← hne2 e2 hee]
              exact hrec
            exact hprot1 e2 hml1 rec hrec1
    have hnd1 : pmKeysNodup pm1 := by
      have := @patchMapRemove_keys_nodup pm pe.entity hnd
      rw [hd] at this
      exact this
    refine ⟨hinv2, hnd1, ?_⟩
    rcases hdisj with ⟨hnone, hfind⟩ | ⟨hsome, hnolid⟩
    · by_cases hkey : pe.entity = lid
      · refine Or.inr ⟨?_, ?_⟩
        · have hl1 : alookup st1.entity_map lid = some e := by
            rw [← hkey]
            exact hke
          show (alookup st2.entity_map lid).isSome
          rw [hmap2, hl1]
          rfl
        · have hrest := @patchMapRemove_rest_no_key pm lid p hnd hfind
          intro q hq
          apply hrest
          rw [← hkey] at hrest ⊢
          rw [hd]
          exact hq
      · refine Or.inl ⟨?_, ?_⟩
        · rw [hmap2]
          exact hlidnone1 hkey hnone
        · have hstab := @patchMapRemove_fst_stable pm lid pe.entity hkey
          have hz : (patchMapRemove pm pe.entity).2 = pm1 := by rw [hd]
          rw [hz] at hstab
          rw [hstab]
          exact hfind
    · have hkeyne : pe.entity ≠ lid := by
        intro he
        have h2 := hok he
        rw [h2] at hsome
        cases hsome
      refine Or.inr ⟨?_, ?_⟩
      · obtain ⟨v, hv⟩ := Option.isSome_iff_exists.1 hsome
        show (alookup st2.entity_map lid).isSome
        rw [hmap2, hmono1 lid v hv]
        rfl
      · intro q hq
        apply hnolid
        apply @patchMapRemove_snd_mem pm pe.entity q
        rw [hd]
        exact hq

theorem processEntity_lid_lookup {reg : Registry} {ig : List Nat}
    {stpm : WriteSt × List PatchEntity} {pe : PrefabEntity} {lid : Nat}
    (hne : pe.entity ≠ lid) :
    alookup (processEntity reg ig stpm pe).1.1.entity_map lid =
      alookup stpm.1.entity_map lid := by
  obtain ⟨st, pm⟩ := stpm
  by_cases hig : ig.contains pe.entity = true
  · have higm : pe.entity ∈ ig := by simpa using hig
    simp [processEntity, higm]
  · have higm : pe.entity ∉ ig := by simpa using hig
    rcases hr : resolveEntity st pe.entity with ⟨e, st1⟩
    rcases hd : patchMapRemove pm pe.entity with ⟨patch, pm1⟩
    rcases hc : processComponents reg patch e st1 (pe.components ++ patchAppend patch)
      with ⟨st2, err⟩
    have hpeq : processEntity reg ig (st, pm) pe = ((st2, pm1), err) := by
      simp [processEntity, higm, hr, hd, hc]
    have hcs := processComponents_state reg patch e st1 (pe.components ++ patchAppend patch)
    rw [hc] at hcs
    rw [hpeq]
    show alookup st2.entity_map lid = alookup st.entity_map lid
    rw [hcs.1]
    cases hl : alookup st.entity_map pe.entity with
    | some e0 =>
      rw [resolveEntity_hit hl] at hr
      cases hr
      rfl
    | none =>
      rw [resolveEntity_miss hl] at hr
      cases hr
      show alookup (st.entity_map ++ [(pe.entity, st.world.next_entity)]) lid = _
      rw [alookup_append_single]
      cases alookup st.entity_map lid with
      | some v => rfl
      | none => rw [if_neg hne]

theorem countP_le_one_of_nodup {α : Type} {l : List α} {f : α → Nat} {k : Nat}
    (h : (l.map f).Nodup) : List.countP (fun x => f x == k) l ≤ 1 := by
  induction l with
  | nil => simp
  | cons a rest ih =>
    rw [List.map_cons, List.nodup_cons] at h
    by_cases ha : f a = k
    · have hzero : List.countP (fun x => f x == k) rest = 0 := by
        rw [List.countP_eq_zero]
        intro x hx
        simp only [beq_iff_eq]
        intro hfx
        exact h.1 (by rw [ha, ← hfx]; exact List.mem_map_of_mem _ hx)
      rw [List.countP_cons]
      simp [ha, hzero]
    · rw [List.countP_cons]
      simp only [beq_iff_eq, ha]
      simpa using ih h.2

theorem processEntities_C4 {reg : Registry} {ig : List Nat}
    {stpm : WriteSt × List PatchEntity} {es : List PrefabEntity} {n : String}
    {lid : Nat} {p : PatchEntity}
    (hrem : p.remove.contains n = true)
    (hC4 : C4State n lid p stpm)
    (hes1 : (alookup stpm.1.entity_map lid).isSome → ∀ q ∈ es, q.entity ≠ lid)
    (hes2 : List.countP (fun q => q.entity == lid) es ≤ 1) :
    C4State n lid p (processEntities reg ig stpm es).1 := by
  induction es generalizing stpm with
  | nil => simpa [processEntities] using hC4
  | cons pe rest ih =>
    rcases hp : processEntity reg ig stpm pe with ⟨stpm1, err⟩
    have hok : pe.entity = lid → alookup stpm.1.entity_map lid = none := by
      intro he
      cases hmm : alookup stpm.1.entity_map lid with
      | none => rfl
      | some v =>
        have hs : (alookup stpm.1.entity_map lid).isSome := by rw [hmm]; rfl
        exact absurd he (hes1 hs pe (by simp))
    have hstep := @processEntity_C4_step reg ig stpm pe n lid p hrem hC4 hok
    rw [hp] at hstep
    cases err with
    | some e2 =>
      simp only [processEntities, hp]
      exact hstep
    | none =>
      simp only [processEntities, hp]
      by_cases hkey : pe.entity = lid
      · have hzero : List.countP (fun q => q.entity == lid) rest = 0 := by
          have hcnt : List.countP (fun q => q.entity == lid) (pe :: rest) ≤ 1 := hes2
          rw [List.countP_cons] at hcnt
          simp only [beq_iff_eq, hkey, if_pos] at hcnt
          omega
        have hrestne : ∀ q ∈ rest, q.entity ≠ lid := by
          rw [List.countP_eq_zero] at hzero
          intro q hq
          have := hzero q hq
          simpa using this
        exact ih hstep (fun _ => hrestne) (by rw [hzero]; omega)
      · have hlk := @processEntity_lid_lookup reg ig stpm pe lid hkey
        rw [hp] at hlk
        refine ih hstep ?_ ?_
        · intro hs q hq
          rw [hlk] at hs
          exact hes1 hs q (List.mem_cons_of_mem _ hq)
        · have hcnt : List.countP (fun q => q.entity == lid) (pe :: rest) ≤ 1 := hes2
          rw [List.countP_cons] at hcnt
          simpa [hkey] using hcnt

theorem processLeftoverEntity_C4 {reg : Registry} {st : WriteSt} {q : PatchEntity}
    {n : String} {lid : Nat} (hne : q.entity ≠ lid)
    (hinv : C4Inv n lid st) : C4Inv n lid (processLeftoverEntity reg st q).1 := by
  rcases hr : resolveEntity st q.entity with ⟨e, st1⟩
  rcases hc : processComponents reg none e st1 q.append with ⟨st2, err⟩
  have hpeq : processLeftoverEntity reg st q = (st2, err) := by
    simp [processLeftoverEntity, hr, hc]
  rw [hpeq]
  have hres := @resolveEntity_C4 st q.entity n lid hinv
  rw [hr] at hres
  obtain ⟨hinv1, hke, _, _, _⟩ := hres
  obtain ⟨hwf1, hbnd1, hinj1, hprot1⟩ := hinv1
  have hcs := processComponents_state reg none e st1 q.append
  rw [hc] at hcs
  obtain ⟨hmap2, hnext2, hkeys2, hne2, _⟩ := hcs
  refine ⟨?_, ?_, ?_, ?_⟩
  · intro kv hkv
    rw [hnext2]
    exact records_lt_of_keys_eq hkeys2 hwf1 kv hkv
  · intro kv hkv
    rw [hnext2]
    exact hbnd1 kv (hmap2 ▸ hkv)
  · intro kv1 h1 kv2 h2 hval
    exact hinj1 kv1 (hmap2 ▸ h1) kv2 (hmap2 ▸ h2) hval
  · intro e2 he2 rec hrec
    rw [hmap2] at he2
    have hee : e2 ≠ e := by
      intro he
      have hkeyeq : lid = q.entity :=
        hinj1 (lid, e2) (alookup_mem he2) (q.entity, e) (alookup_mem hke) he
      exact hne hkeyeq.symm
    have hrec1 : alookup st1.world.records e2 = some rec := by
      rw [← hne2 e2 hee]
      exact hrec
    exact hprot1 e2 he2 rec hrec1

theorem processLeftovers_C4 {reg : Registry} {st : WriteSt} {pm : List PatchEntity}
    {n : String} {lid : Nat} (hq : ∀ q ∈ pm, q.entity ≠ lid)
    (hinv : C4Inv n lid st) : C4Inv n lid (processLeftovers reg st pm).1 := by
  induction pm generalizing st with
  | nil => simpa [processLeftovers] using hinv
  | cons q rest ih =>
    rcases hp : processLeftoverEntity reg st q with ⟨st1, err⟩
    have hstep := @processLeftoverEntity_C4 reg st q n lid (hq q (by simp)) hinv
    rw [hp] at hstep
    cases err with
    | some e2 =>
      simp only [processLeftovers, hp]
      exact hstep
    | none =>
      simp only [processLeftovers, hp]
      exact ih (fun q2 h2 => hq q2 (List.mem_cons_of_mem _ h2)) hstep

/-- C4: for a snapshot entity (id unique in its snapshot, per the data
model) with a matching patch entity, a type name in the patch's `remove` set
is absent from the live record `write()` produces for that entity into a
fresh remap table: removal wins over `modify` and over the snapshot and
`append` values of that type.  The hypothesis that the type is also listed
in `modify` mirrors the claim; the proof needs only membership in `remove`. -/
theorem claim_C4_remove_wins (reg : Registry) (patch : Patch) (prefab : Prefab)
    (w : World) (pe : PrefabEntity) (p : PatchEntity) (n : String)
    (hmem : pe ∈ prefab.entities)
    (hnodup : (prefab.entities.map PrefabEntity.entity).Nodup)
    (hig : pe.entity ∉ patch.ignore)
    (hfind : (patchMapRemove (collectPatchMap patch.modify) pe.entity).1 = some p)
    (hrem : p.remove.contains n = true)
    (_hmod : (alookup p.modify n).isSome)
    (hwf : ∀ kv ∈ w.records, kv.1 < w.next_entity) :
    ∀ e, alookup (writeToWorld reg patch prefab w []).entity_map pe.entity = some e →
      ∀ rec, alookup (writeToWorld reg patch prefab w []).world.records e = some rec →
        ∀ c ∈ rec.components, c.type_name ≠ n := by
  have hC40 : C4State n pe.entity p (⟨w, [], []⟩, collectPatchMap patch.modify) := by
    refine ⟨⟨hwf, ?_, ?_, ?_⟩, collectPatchMap_keys_nodup _, Or.inl ⟨rfl, hfind⟩⟩
    · intro kv hkv
      simp at hkv
    · intro kv1 h1
      simp at h1
    · intro e he
      simp [alookup] at he
  rcases hA : processEntities reg patch.ignore (⟨w, [], []⟩, collectPatchMap patch.modify)
      prefab.entities with ⟨⟨st1, pm1⟩, err1⟩
  have hC41 := @processEntities_C4 reg patch.ignore
    (⟨w, [], []⟩, collectPatchMap patch.modify) prefab.entities n pe.entity p hrem hC40
    (by
      intro hs
      simp [alookup] at hs)
    (countP_le_one_of_nodup (f := PrefabEntity.entity) hnodup)
  rw [hA] at hC41
  cases err1 with
  | some e1 =>
    intro e he rec hrec
    have heb : alookup st1.entity_map pe.entity = some e := by
      have hz : (writeToWorld reg patch prefab w []).entity_map = st1.entity_map := by
        simp only [writeToWorld, hA]
      rw [hz] at he
      exact he
    have hrecb : alookup st1.world.records e = some rec := by
      have hz : (writeToWorld reg patch prefab w []).world = st1.world := by
        simp only [writeToWorld, hA]
      rw [hz] at hrec
      exact hrec
    exact hC41.1.2.2.2 e heb rec hrecb
  | none =>
    have hcov := @processEntities_covers reg patch.ignore
      (⟨w, [], []⟩, collectPatchMap patch.modify) prefab.entities
      (by rw [hA]) pe hmem
    rw [hA] at hcov
    have hsome : (alookup st1.entity_map pe.entity).isSome := by
      rcases hcov with hcov | hcov
      · exact absurd (by simpa using hcov) hig
      · exact hcov
    rcases hC41.2.2 with ⟨hnone, _⟩ | ⟨_, hnolid⟩
    · rw [show alookup st1.entity_map pe.entity = none from hnone] at hsome
      cases hsome
    · rcases hB : processLeftovers reg st1 pm1 with ⟨st2, err2⟩
      have hC42 := @processLeftovers_C4 reg st1 pm1 n pe.entity hnolid hC41.1
      rw [hB] at hC42
      cases err2 with
      | some e2 =>
        intro e he rec hrec
        have heb : alookup st2.entity_map pe.entity = some e := by
          have hz : (writeToWorld reg patch prefab w []).entity_map = st2.entity_map := by
            simp only [writeToWorld, hA, hB]
          rw [hz] at he
          exact he
        have hrecb : alookup st2.world.records e = some rec := by
          have hz : (writeToWorld reg patch prefab w []).world = st2.world := by
            simp only [writeToWorld, hA, hB]
          rw [hz] at hrec
          exact hrec
        exact hC42.2.2.2 e heb rec hrecb
      | none =>
        intro e he rec hrec
        have heb : alookup st2.entity_map pe.entity = some e := by
          have hz : (writeToWorld reg patch prefab w []).entity_map = st2.entity_map := by
            simp only [writeToWorld, hA, hB]
          rw [hz] at he
          exact he
        have hrecb : alookup (applySceneMappings reg st2.entity_map st2.world
            st2.scene_mappings).records e = some rec := by
          have hz : (writeToWorld reg patch prefab w []).world =
              applySceneMappings reg st2.entity_map st2.world st2.scene_mappings := by
            simp only [writeToWorld, hA, hB]
          rw [hz] at hrec
          exact hrec
        exact applySceneMappings_no_n (hC42.2.2.2 e heb) rec hrecb

/-- Witness for C4 at a concrete input: with Position listed in both
`remove` and `modify` of the matching patch entity, the record written for
local id 1 holds only the Health value, whose type name — by the main
theorem applied to that record — is not the removed one. -/
theorem claim_C4_witness :
    (⟨"Health", [("hp", 10)]⟩ : Value).type_name ≠ "Position" :=
  claim_C4_remove_wins regPH patchRemoveModify prefabPH ⟨0, []⟩
    ⟨1, [⟨"Position", [("x", 0), ("y", 0)]⟩, ⟨"Health", [("hp", 10)]⟩]⟩
    ⟨1, [], [("Position", [("x", 5)])], ["Position"]⟩ "Position"
    (by decide) (by decide) (by decide) (by decide) (by decide) (by decide) (by decide)
    0 (by decide) ⟨[⟨"Health", [("hp", 10)]⟩], none⟩ (by decide)
    ⟨"Health", [("hp", 10)]⟩ (by decide)

end BevyPrefab
